import Mathlib

/-!
# Clipboard: a shallow embedding of `src/clipboard.cpp`

The program stages files in `<temp directory>/Clipboard` (cut, copy) and copies the
staging directory into the working directory (paste).  The embedding has three layers:

* `Path`: the element sequence of a `std::filesystem::path` (what iteration yields and what
  `==` compares), with `parent_path`, `filename` and `operator/`;
* `Node` and the functions of namespace `Fs`: a tree model of the filesystem and of the
  `std::filesystem` calls the program makes (no permissions, one device; a symbolic link is
  a leaf that is copied and moved as a link and has no status when followed);
* `World` and the program's own functions, one definition per function of the source, in
  the order of the source.  The global variables are the fields of `World`; standard output
  is the list `World.out`, one entry per `printf`.

Scope of the filesystem model.  A symbolic link is a leaf of the tree: it is copied and
moved as a link, and no path is resolved through one.  The model therefore describes the
runs in which no path that the program hands to `fs::status` names a symbolic link or leads
through one.  In those runs `fs::is_directory` and `fs::exists` raise nothing; this is why
they are Boolean functions here, and why `countSuccessesAndFailures`, whose calls the source
makes outside any `try`, always returns a state.  Statements about items are made for items
that are regular files or directories.
-/

namespace Clipboard

/-! ## Paths -/

/-- One element of a path: the empty element that ends a path written with a trailing
separator, dot, dot-dot, or a file name. -/
inductive Comp where
  | empty
  | dot
  | dotdot
  | name (s : String)
  deriving DecidableEq, Repr

/-- A `std::filesystem::path` on a POSIX system, as its element sequence: whether it begins
with the root directory, then its elements.  Two paths are `==` exactly when their element
sequences agree, which is equality of this structure. -/
structure Path where
  root : Bool
  comps : List Comp
  deriving DecidableEq, Repr

/-- The pieces of a character sequence between separators. -/
def splitOnSlash : List Char → List (List Char)
  | [] => [[]]
  | c :: cs =>
    if c = '/' then [] :: splitOnSlash cs
    else
      match splitOnSlash cs with
      | [] => [[c]]
      | seg :: segs => (c :: seg) :: segs

/-- The path element a non-empty piece of text stands for. -/
def Comp.ofChars (seg : List Char) : Comp :=
  if seg = ['.'] then Comp.dot
  else if seg = ['.', '.'] then Comp.dotdot
  else Comp.name (String.mk seg)

/-- Construction of a path from text, as `fs::path(const char*)` does: repeated separators
count once and a trailing separator leaves an empty last element. -/
def Path.ofString (s : String) : Path :=
  let segs := splitOnSlash s.data
  let names := (segs.filter (fun seg => !seg.isEmpty)).map Comp.ofChars
  { root := s.data.head? == some '/'
    comps := if segs.getLast? == some [] ∧ names ≠ [] then names ++ [Comp.empty] else names }

/-- Text of one path element. -/
def Comp.string : Comp → String
  | Comp.empty => ""
  | Comp.dot => "."
  | Comp.dotdot => ".."
  | Comp.name s => s

/-- The text of a path, `path::string()`, with separators written once. -/
def Path.string (p : Path) : String :=
  (if p.root then "/" else "") ++ "/".intercalate (p.comps.map Comp.string)

/-- The C++ `path::parent_path()`: the path without its last element; a path with no element
is its own parent. -/
def Path.parent_path (p : Path) : Path :=
  { p with comps := p.comps.dropLast }

/-- The C++ `path::filename()`: the last element as a relative path, the empty path when
there is no element or the path ends in a separator. -/
def Path.filename (p : Path) : Path :=
  match p.comps.getLast? with
  | none => { root := false, comps := [] }
  | some Comp.empty => { root := false, comps := [] }
  | some c => { root := false, comps := [c] }

/-- Whether the path has a non-empty last element, `path::has_filename()`. -/
def Path.has_filename (p : Path) : Bool :=
  match p.comps.getLast? with
  | none => false
  | some Comp.empty => false
  | some _ => true

/-- The C++ `operator/`: an absolute right operand replaces the left one; otherwise a separator
is added after a left operand that has a file name and the right operand is appended. -/
def Path.append (p q : Path) : Path :=
  if q.root then q
  else if p.has_filename then
    { p with comps := p.comps ++ (if q.comps = [] then [Comp.empty] else q.comps) }
  else if q.comps = [] then p
  else { p with comps := p.comps.dropLast ++ q.comps }

/-! ## The filesystem -/

/-- A filesystem object: a regular file with its bytes, a symbolic link with its target
text, or a directory with its entries.  Links are leaves: the model copies and moves them
but resolves no path through one, so the followed status of a link is "not found". -/
inductive Node where
  | file (content : String)
  | symlink (target : String)
  | dir (children : List (String × Node))

/-- An absolute location with no dot element: the names from the root directory down. -/
abbrev Loc := List String

/-- Error conditions of the filesystem calls, named as in `std::errc`. -/
inductive Errc where
  | no_such_file_or_directory
  | file_exists
  | not_a_directory
  | is_a_directory
  | directory_not_empty
  | invalid_argument
  | device_or_resource_busy
  deriving DecidableEq, Repr

/-- The text of `error_code::message()`. -/
def Errc.message : Errc → String
  | Errc.no_such_file_or_directory => "No such file or directory"
  | Errc.file_exists => "File exists"
  | Errc.not_a_directory => "Not a directory"
  | Errc.is_a_directory => "Is a directory"
  | Errc.directory_not_empty => "Directory not empty"
  | Errc.invalid_argument => "Invalid argument"
  | Errc.device_or_resource_busy => "Device or resource busy"

/-- The entry called `x` of a directory: the first one, when the list repeats a name. -/
def lookupChild (x : String) : List (String × Node) → Option Node
  | [] => none
  | (y, n) :: rest => if y = x then some n else lookupChild x rest

/-- Entries without those called `x`. -/
def eraseChild (x : String) (ch : List (String × Node)) : List (String × Node) :=
  ch.filter (fun e => e.1 ≠ x)

/-- Entries with `x` bound to `v`: in place when `x` is there, at the end otherwise. -/
def putChild (x : String) (v : Node) : List (String × Node) → List (String × Node)
  | [] => [(x, v)]
  | (y, n) :: rest => if y = x then (x, v) :: rest else (y, n) :: putChild x v rest

/-- The object at a location, if any. -/
def Node.get : Node → Loc → Option Node
  | n, [] => some n
  | Node.dir ch, x :: rest =>
    match lookupChild x ch with
    | some c => c.get rest
    | none => none
  | _, _ :: _ => none

/-- The tree with `v` at a location whose parent is an existing directory; `none` when the
parent is missing or is no directory. -/
def Node.put : Node → Loc → Node → Option Node
  | _, [], v => some v
  | Node.dir ch, x :: rest, v =>
    match lookupChild x ch with
    | some c =>
      match c.put rest v with
      | some c1 => some (Node.dir (putChild x c1 ch))
      | none => none
    | none => if rest = [] then some (Node.dir (putChild x v ch)) else none
  | _, _ :: _, _ => none

/-- The tree without the object at a location and all below it; the root stays. -/
def Node.erase : Node → Loc → Node
  | n, [] => n
  | Node.dir ch, x :: rest =>
    match rest with
    | [] => Node.dir (eraseChild x ch)
    | _ :: _ =>
      match lookupChild x ch with
      | some c => Node.dir (putChild x (c.erase rest) ch)
      | none => Node.dir ch
  | n, _ :: _ => n

/-- Whether a directory is at the location. -/
def Node.isDirAt (fs : Node) (l : Loc) : Bool :=
  match fs.get l with
  | some (Node.dir _) => true
  | _ => false

/-- Path resolution from directory `cur`: every element is looked up in a directory that
exists; the object the last element names need not exist. -/
def walk (fs : Node) : Loc → List Comp → Option Loc
  | cur, [] => some cur
  | cur, c :: rest =>
    if fs.isDirAt cur then
      match c with
      | Comp.empty => walk fs cur rest
      | Comp.dot => walk fs cur rest
      | Comp.dotdot => walk fs cur.dropLast rest
      | Comp.name s => walk fs (cur ++ [s]) rest
    else none

/-- The location a path names, from the working directory `cwd` when it is relative.  The
empty path names nothing. -/
def resolve (fs : Node) (cwd : Loc) (p : Path) : Option Loc :=
  if p.root then walk fs [] p.comps
  else if p.comps = [] then none
  else walk fs cwd p.comps

/-- The error of a resolution from `cur` that fails: an element looked up in an object
that is no directory is `ENOTDIR`, one looked up where nothing is, `ENOENT`. -/
def walkErrc (fs : Node) : Loc → List Comp → Errc
  | _, [] => Errc.no_such_file_or_directory
  | cur, c :: rest =>
    match fs.get cur with
    | some (Node.dir _) =>
      match c with
      | Comp.empty => walkErrc fs cur rest
      | Comp.dot => walkErrc fs cur rest
      | Comp.dotdot => walkErrc fs cur.dropLast rest
      | Comp.name s => walkErrc fs (cur ++ [s]) rest
    | some _ => Errc.not_a_directory
    | none => Errc.no_such_file_or_directory

/-- The error a call raises for a path that `resolve` does not resolve; the empty path is
`ENOENT`. -/
def resolveErrc (fs : Node) (cwd : Loc) (p : Path) : Errc :=
  if p.root then walkErrc fs [] p.comps else walkErrc fs cwd p.comps

/-- The object a path names, links not followed: `fs::symlink_status`. -/
def lstat (fs : Node) (cwd : Loc) (p : Path) : Option Node :=
  match resolve fs cwd p with
  | some l => fs.get l
  | none => none

/-- The object a path names, links followed: `fs::status`.  A link has no followed status
in this model. -/
def stat (fs : Node) (cwd : Loc) (p : Path) : Option Node :=
  match lstat fs cwd p with
  | some (Node.symlink _) => none
  | r => r

/-- The absolute path of a location. -/
def Path.ofLoc (l : Loc) : Path :=
  { root := true, comps := l.map Comp.name }

/-- The name a path ends in, when it ends in one. -/
def Path.lastName (p : Path) : Option String :=
  match p.comps.getLast? with
  | some (Comp.name s) => some s
  | _ => none

/-- Whether a path ends in dot or dot-dot. -/
def Path.endsInDot (p : Path) : Bool :=
  match p.comps.getLast? with
  | some Comp.dot => true
  | some Comp.dotdot => true
  | _ => false

mutual
/-- The recursion of `fs::copy(from, to, recursive | copy_symlinks | overwrite_existing)` on
the object `src` found at `from`, given the object `dst` found at `to` (links not followed)
and `fname`, the file name of `from`.  It returns the object at `to` afterwards and the
error that stopped the copy, if one did; what was copied before the error stays.

* a regular file goes to `to`, or to `to / fname` when `to` is a directory, replacing a
  regular file that is there;
* a link is created at `to` when nothing is there, and is an error otherwise;
* a directory is created at `to` unless something is there, then each entry `x` is copied
  to `to / x`. -/
def copyNode (src : Node) (fname : Option String) (dst : Option Node) : Node × Option Errc :=
  match src with
  | Node.file c =>
    match dst with
    | none => (Node.file c, none)
    | some (Node.file _) => (Node.file c, none)
    | some (Node.symlink t) => (Node.symlink t, some Errc.file_exists)
    | some (Node.dir dch) =>
      match fname with
      | none => (Node.dir dch, some Errc.is_a_directory)
      | some x =>
        match lookupChild x dch with
        | none => (Node.dir (putChild x (Node.file c) dch), none)
        | some (Node.file _) => (Node.dir (putChild x (Node.file c) dch), none)
        | some (Node.symlink _) => (Node.dir dch, some Errc.file_exists)
        | some (Node.dir _) => (Node.dir dch, some Errc.is_a_directory)
  | Node.symlink t =>
    match dst with
    | none => (Node.symlink t, none)
    | some d => (d, some Errc.file_exists)
  | Node.dir ch =>
    match dst with
    | none =>
      match copyChildren ch [] with
      | (r, e) => (Node.dir r, e)
    | some (Node.dir dch) =>
      match copyChildren ch dch with
      | (r, e) => (Node.dir r, e)
    | some (Node.file c) => (Node.file c, some Errc.is_a_directory)
    | some (Node.symlink t) =>
      match ch with
      | [] => (Node.symlink t, none)
      | _ :: _ => (Node.symlink t, some Errc.no_such_file_or_directory)
/-- The loop of `fs::copy` over the entries of a source directory, into the entries `dch`
of the destination directory; it stops at the first error. -/
def copyChildren (ch : List (String × Node)) (dch : List (String × Node)) :
    List (String × Node) × Option Errc :=
  match ch with
  | [] => (dch, none)
  | (x, c) :: rest =>
    match copyNode c (some x) (lookupChild x dch) with
    | (r, some e) => (putChild x r dch, some e)
    | (r, none) => copyChildren rest (putChild x r dch)
end

/-- The call `fs::is_directory(p)`. -/
def Fs.is_directory (fs : Node) (cwd : Loc) (p : Path) : Bool :=
  match stat fs cwd p with
  | some (Node.dir _) => true
  | _ => false

/-- The call `fs::exists(p)`. -/
def Fs.exists (fs : Node) (cwd : Loc) (p : Path) : Bool :=
  (stat fs cwd p).isSome

/-- The call `fs::temp_directory_path()`: the temp directory of the environment, an error
unless it is an existing directory.  Standard libraries differ in the code they report for
a missing directory (`not_a_directory` or `no_such_file_or_directory`); the code shows only
in the text of the message. -/
def Fs.temp_directory_path (fs : Node) (tmp : Loc) : Except Errc Path :=
  if fs.isDirAt tmp then Except.ok (Path.ofLoc tmp) else Except.error Errc.not_a_directory

/-- The call `fs::current_path()`: an error when the working directory is gone. -/
def Fs.current_path (fs : Node) (cwd : Loc) : Except Errc Path :=
  if fs.isDirAt cwd then Except.ok (Path.ofLoc cwd)
  else Except.error Errc.no_such_file_or_directory

/-- The directories `fs::create_directories` makes along a path, from directory `cur`. -/
def Fs.mkdirs (fs : Node) : Loc → List Comp → Node × Option Errc
  | _, [] => (fs, none)
  | cur, c :: rest =>
    match c with
    | Comp.empty =>
      if fs.isDirAt cur then Fs.mkdirs fs cur rest else (fs, some Errc.not_a_directory)
    | Comp.dot =>
      if fs.isDirAt cur then Fs.mkdirs fs cur rest else (fs, some Errc.not_a_directory)
    | Comp.dotdot =>
      if fs.isDirAt cur then Fs.mkdirs fs cur.dropLast rest else (fs, some Errc.not_a_directory)
    | Comp.name s =>
      match fs.get (cur ++ [s]) with
      | some (Node.dir _) => Fs.mkdirs fs (cur ++ [s]) rest
      | some (Node.file _) => (fs, some Errc.not_a_directory)
      | some (Node.symlink _) => (fs, some Errc.file_exists)
      | none =>
        match fs.put (cur ++ [s]) (Node.dir []) with
        | some fs1 => Fs.mkdirs fs1 (cur ++ [s]) rest
        | none => (fs, some Errc.no_such_file_or_directory)

/-- The call `fs::create_directories(p)`: nothing to do when `p` is a directory; otherwise
every missing directory along `p` is made.  Returns the filesystem afterwards and the error
raised, if any. -/
def Fs.create_directories (fs : Node) (cwd : Loc) (p : Path) : Node × Option Errc :=
  if Fs.is_directory fs cwd p then (fs, none)
  else if ¬ p.root ∧ p.comps = [] then (fs, some Errc.no_such_file_or_directory)
  else Fs.mkdirs fs (if p.root then [] else cwd) p.comps

/-- The call `fs::remove_all(p)`: removes the object `p` names and all below it; nothing
there is no error. -/
def Fs.remove_all (fs : Node) (cwd : Loc) (p : Path) : Node × Option Errc :=
  match resolve fs cwd p with
  | none => (fs, none)
  | some [] => (fs, some Errc.device_or_resource_busy)
  | some (x :: l) => (fs.erase (x :: l), none)

/-- The entries `fs::directory_iterator(p)` yields, as `entry.path()`, that is `p / name`. -/
def Fs.directory_iterator (fs : Node) (cwd : Loc) (p : Path) : Except Errc (List Path) :=
  match stat fs cwd p with
  | some (Node.dir ch) =>
    Except.ok (ch.map (fun e => p.append { root := false, comps := [Comp.name e.1] }))
  | some _ => Except.error Errc.not_a_directory
  | none => Except.error Errc.no_such_file_or_directory

/-- The call `fs::copy(from, to, recursive | copy_symlinks | overwrite_existing)`.  Returns
the filesystem afterwards and the error raised, if any.  The source is read as it is when the
call starts. -/
def Fs.copy (fs : Node) (cwd : Loc) (pfrom pto : Path) : Node × Option Errc :=
  match resolve fs cwd pfrom with
  | none => (fs, some (resolveErrc fs cwd pfrom))
  | some lf =>
    match fs.get lf with
    | none => (fs, some Errc.no_such_file_or_directory)
    | some src =>
      match resolve fs cwd pto with
      | none => (fs, some (resolveErrc fs cwd pto))
      | some lt =>
        if lf = lt then (fs, some Errc.file_exists)
        else
          match copyNode src pfrom.lastName (fs.get lt) with
          | (r, e) =>
            match fs.put lt r with
            | some fs1 => (fs1, e)
            | none => (fs, some Errc.no_such_file_or_directory)

/-- The call `fs::rename(from, to)`, the POSIX `rename`: the object moves with all below it;
a directory may replace only an empty directory, another object only a non-directory.
Returns the filesystem, the working directory (it moves with a directory that holds it) and
the error raised, if any. -/
def Fs.rename (fs : Node) (cwd : Loc) (pfrom pto : Path) : Node × Loc × Option Errc :=
  if pfrom.endsInDot ∨ pto.endsInDot then (fs, cwd, some Errc.device_or_resource_busy)
  else
    match resolve fs cwd pfrom with
    | none => (fs, cwd, some (resolveErrc fs cwd pfrom))
    | some lf =>
      match fs.get lf with
      | none => (fs, cwd, some Errc.no_such_file_or_directory)
      | some src =>
        match resolve fs cwd pto with
        | none => (fs, cwd, some (resolveErrc fs cwd pto))
        | some lt =>
          if lf = lt then (fs, cwd, none)
          else if lf <+: lt then (fs, cwd, some Errc.invalid_argument)
          else
            match src, fs.get lt with
            | Node.dir _, some (Node.dir (_ :: _)) => (fs, cwd, some Errc.directory_not_empty)
            | Node.dir _, some (Node.file _) => (fs, cwd, some Errc.not_a_directory)
            | Node.dir _, some (Node.symlink _) => (fs, cwd, some Errc.not_a_directory)
            | Node.file _, some (Node.dir _) => (fs, cwd, some Errc.is_a_directory)
            | Node.symlink _, some (Node.dir _) => (fs, cwd, some Errc.is_a_directory)
            | _, _ =>
              match (fs.erase lf).put lt src with
              | some fs1 =>
                (fs1, if lf <+: cwd then lt ++ cwd.drop lf.length else cwd, none)
              | none => (fs, cwd, some Errc.no_such_file_or_directory)


/-! ## The program -/

/-- The source's `enum class Action`. -/
inductive Action where
  | Cut
  | Copy
  | Paste
  deriving DecidableEq, Repr

/-- The state of a run: the filesystem, the working directory and the temp directory of the
environment, standard output (one entry per `printf`), and the global variables of the
source: `filepath`, `action`, `items`, `files_success`, `directories_success`. -/
structure World where
  fs : Node
  cwd : Loc
  tmp : Loc
  out : List String
  filepath : Path
  action : Action
  items : List Path
  files_success : Nat
  directories_success : Nat

/-- How a function stops the run: a call of `exit`, or an exception on its way to the
handler of `main`. -/
inductive Abort where
  | exit (code : Nat)
  | filesystem_error (op : String) (e : Errc)
  | out_of_range
  deriving DecidableEq, Repr

/-- The text of `exception::what()`. -/
def Abort.what : Abort → String
  | Abort.exit _ => ""
  | Abort.filesystem_error op e => "filesystem error: " ++ op ++ ": " ++ e.message
  | Abort.out_of_range => "vector::_M_range_check"

/-- A function of the program: it returns the next state, or stops the run in a state. -/
abbrev Step := Except (Abort × World) World

/-- The C conversion `int(n)` of an unsigned size, 32 bits wide. -/
def toInt32 (n : Nat) : Int :=
  if n % 2 ^ 32 < 2 ^ 31 then ((n % 2 ^ 32 : Nat) : Int) else ((n % 2 ^ 32 : Nat) : Int) - 2 ^ 32

/-- The C increment `n++` of an `unsigned int`. -/
def inc32 (n : Nat) : Nat :=
  (n + 1) % 2 ^ 32

/-- What `printf` writes for `%i` given an `unsigned int`. -/
def fmtUnsigned (n : Nat) : String :=
  toString (toInt32 n)

/-- What `printf` writes for `%d` given an `int`. -/
def fmtInt (i : Int) : String :=
  toString i

/-- The state after one `printf`. -/
def World.print (w : World) (line : String) : World :=
  { w with out := w.out ++ [line] }

/-- The twelve lines of `displayHelpMessage`. -/
def helpLines : List String :=
  ["\x1b[38;5;51m▏This is Clipboard 0.1.0, the copy and paste system for the command line.\x1b[0m\n",
   "\x1b[38;5;51m\x1b[1m▏How To Use\x1b[0m\n",
   "\x1b[38;5;208m▏clipboard cut [options] (item) [items]\x1b[0m\n",
   "\x1b[38;5;208m▏clipboard copy [options] (item) [items]\x1b[0m\n",
   "\x1b[38;5;208m▏clipboard paste [options]\x1b[0m\n",
   "\x1b[38;5;51m▏You can substitute \"cb\" for \"clipboard\" to save time.\x1b[0m\n",
   "\x1b[38;5;51m\x1b[1m▏Examples\x1b[0m\n",
   "\x1b[38;5;208m▏cb cut nuclearlaunchcodes.txt Contacts_Folder\x1b[0m\n",
   "\x1b[38;5;208m▏clipboard copy dogfood.conf\x1b[0m\n",
   "\x1b[38;5;208m▏cb paste\x1b[0m\n",
   "\x1b[38;5;51m▏Copyright (C) 2022 Jackson Huff. Licensed under the GPLv3.\x1b[0m\n",
   "\x1b[38;5;51m▏This program comes with ABSOLUTELY NO WARRANTY. This is free software, and you are welcome to redistribute it under certain conditions.\x1b[0m\n"]

/-- The source's `displayHelpMessage`. -/
def displayHelpMessage (w : World) : World :=
  { w with out := w.out ++ helpLines }

/-- The source's `setupVariables`: the staging path is `temp_directory_path() / "Clipboard"`
and every argument from the third on becomes an item. -/
def setupVariables (argv : List String) (w : World) : Step :=
  match Fs.temp_directory_path w.fs w.tmp with
  | Except.error e => Except.error (Abort.filesystem_error "temp_directory_path" e, w)
  | Except.ok t =>
    Except.ok { w with filepath := t.append (Path.ofString "Clipboard"),
                       items := w.items ++ (argv.drop 2).map Path.ofString }

/-- The source's `checkFlags`: any argument equal to `-h` or `--help`, the program name
included, shows the help and exits with 0. -/
def checkFlags (argv : List String) (w : World) : Step :=
  if argv.any (fun a => a = "-h" ∨ a = "--help") then
    Except.error (Abort.exit 0, displayHelpMessage w)
  else Except.ok w

/-- Message of `setupAction` for an action that is none of cut, copy, paste. -/
def msgInvalidAction : String :=
  "\x1b[38;5;196m╳ You did not specify a valid action, or you forgot to include one. \x1b[38;5;219mTry using or adding \x1b[1mcut, copy, or paste\x1b[0m\x1b[38;5;219m instead, like \x1b[1mclipboard copy\x1b[0m.\n"

/-- Message of `setupAction` when there is no action argument. -/
def msgNoAction : String :=
  "\x1b[38;5;196m╳ You did not specify an action. \x1b[38;5;219mTry adding \x1b[1mcut, copy, or paste\x1b[0m\x1b[38;5;219m to the end, like \x1b[1mclipboard copy\x1b[0m\x1b[38;5;219m. If you need more help, try \x1b[1mclipboard -h\x1b[0m\x1b[38;5;219m to show the help screen.\x1b[0m\n"

/-- The source's `setupAction`. -/
def setupAction (argv : List String) (w : World) : Step :=
  if argv.length ≥ 2 then
    match argv[1]? with
    | some a =>
      if a = "cut" then Except.ok { w with action := Action.Cut }
      else if a = "copy" then Except.ok { w with action := Action.Copy }
      else if a = "paste" then Except.ok { w with action := Action.Paste }
      else Except.error (Abort.exit 1, w.print msgInvalidAction)
    | none => Except.error (Abort.exit 1, w.print msgInvalidAction)
  else Except.error (Abort.exit 1, w.print msgNoAction)

/-- Message of `checkForNoItems` for Copy. -/
def msgNothingToCopy : String :=
  "\x1b[38;5;196m╳ You need to choose something to copy.\x1b[38;5;219m Try adding the items you want to copy to the end, like \x1b[1mcopy contacts.txt myprogram.cpp\x1b[0m\n"

/-- Message of `checkForNoItems` for Cut. -/
def msgNothingToCut : String :=
  "\x1b[38;5;196m╳ You need to choose something to cut.\x1b[38;5;219m Try adding the items you want to cut to the end, like \x1b[1mcut contacts.txt myprogram.cpp\x1b[0m\n"

/-- The source's `checkForNoItems`. -/
def checkForNoItems (w : World) : Step :=
  if w.action ≠ Action.Paste ∧ w.items.length < 1 then
    match w.action with
    | Action.Copy => Except.error (Abort.exit 1, w.print msgNothingToCopy)
    | Action.Cut => Except.error (Abort.exit 1, w.print msgNothingToCut)
    | Action.Paste => Except.error (Abort.exit 1, w)
  else Except.ok w

/-- The loop of `setupTempDirectory` over the entries of the staging directory. -/
def removeEntries (cwd : Loc) : List Path → Node → Node × Option Errc
  | [], fs => (fs, none)
  | e :: rest, fs =>
    match Fs.remove_all fs cwd e with
    | (fs1, some err) => (fs1, some err)
    | (fs1, none) => removeEntries cwd rest fs1

/-- The source's `setupTempDirectory`: an existing staging directory is emptied unless the
action is Paste; a missing one is created.  A filesystem error is not caught here. -/
def setupTempDirectory (w : World) : Step :=
  if Fs.is_directory w.fs w.cwd w.filepath then
    if w.action ≠ Action.Paste then
      match Fs.directory_iterator w.fs w.cwd w.filepath with
      | Except.error e => Except.error (Abort.filesystem_error "directory iterator" e, w)
      | Except.ok entries =>
        match removeEntries w.cwd entries w.fs with
        | (fs1, some e) =>
          Except.error (Abort.filesystem_error "cannot remove all" e, { w with fs := fs1 })
        | (fs1, none) => Except.ok { w with fs := fs1 }
    else Except.ok w
  else
    match Fs.create_directories w.fs w.cwd w.filepath with
    | (fs1, some e) =>
      Except.error (Abort.filesystem_error "cannot create directories" e, { w with fs := fs1 })
    | (fs1, none) => Except.ok { w with fs := fs1 }

/-- The source's `setupIndicator`. -/
def setupIndicator (w : World) : World :=
  match w.action with
  | Action.Copy => w.print "\x1b[38;5;214m• Copying...\x1b[0m\r"
  | Action.Cut => w.print "\x1b[38;5;214m• Cutting...\x1b[0m\r"
  | Action.Paste => w.print "\x1b[38;5;214m• Pasting...\x1b[0m\r"

/-- The body of the `try` block of the Copy loop for item `f`: the state afterwards and the
`filesystem_error` it raised, if any. -/
def copyItem (w : World) (f : Path) : World × Option Errc :=
  if Fs.is_directory w.fs w.cwd f then
    match Fs.create_directories w.fs w.cwd (w.filepath.append f.parent_path.filename) with
    | (fs1, some e) => ({ w with fs := fs1 }, some e)
    | (fs1, none) =>
      match Fs.copy fs1 w.cwd f (w.filepath.append f.parent_path.filename) with
      | (fs2, r) => ({ w with fs := fs2 }, r)
  else
    match Fs.copy w.fs w.cwd f (w.filepath.append f.filename) with
    | (fs1, r) => ({ w with fs := fs1 }, r)

/-- The body of the `try` block of the Cut loop for item `f`. -/
def cutItem (w : World) (f : Path) : World × Option Errc :=
  if Fs.is_directory w.fs w.cwd f then
    match Fs.create_directories w.fs w.cwd (w.filepath.append f.parent_path.filename) with
    | (fs1, some e) => ({ w with fs := fs1 }, some e)
    | (fs1, none) =>
      match Fs.rename fs1 w.cwd f (w.filepath.append f.parent_path.filename) with
      | (fs2, cwd2, r) => ({ w with fs := fs2, cwd := cwd2 }, r)
  else
    match Fs.rename w.fs w.cwd f (w.filepath.append f.filename) with
    | (fs1, cwd1, r) => ({ w with fs := fs1, cwd := cwd1 }, r)

/-- One round of a transfer loop: the `try` block for `f`, and in the `catch` clause
`failedItems.emplace_back(f, e)`. -/
def transferStep (item : World → Path → World × Option Errc)
    (acc : World × List (Path × Errc)) (f : Path) : World × List (Path × Errc) :=
  match item acc.1 f with
  | (w1, some e) => (w1, acc.2 ++ [(f, e)])
  | (w1, none) => (w1, acc.2)

/-- The loop `for (const auto& f : items)` of the Copy and Cut branches, from an empty
`failedItems`. -/
def transferLoop (item : World → Path → World × Option Errc) (w : World) :
    World × List (Path × Errc) :=
  w.items.foldl (transferStep item) (w, [])

/-- The Paste branch of `performAction`: one copy of the staging directory into the working
directory, and one line for its outcome. -/
def pasteAll (w : World) : World :=
  match Fs.current_path w.fs w.cwd with
  | Except.error _ => w.print "\x1b[38;5;196m╳ Failed to paste\x1b[0m"
  | Except.ok here =>
    match Fs.copy w.fs w.cwd w.filepath here with
    | (fs1, none) => { w with fs := fs1 }.print "\x1b[38;5;40m√ Pasted\x1b[0m"
    | (fs1, some _) => { w with fs := fs1 }.print "\x1b[38;5;196m╳ Failed to paste\x1b[0m"

/-- The line of the failure listing for one record: its path and the message of its error. -/
def failureLine (r : Path × Errc) : String :=
  "\x1b[38;5;196m▏ " ++ r.1.string ++ ": " ++ r.2.message ++ "\x1b[0m\n"

/-- The line that closes a listing of more than five records. -/
def moreLine (failedItems : List (Path × Errc)) : String :=
  "\x1b[38;5;196m▏ ...and " ++ fmtInt (toInt32 failedItems.length - 5) ++ " more.\x1b[0m\n"

/-- The body of the listing loop for index `i`. -/
def listingRound (failedItems : List (Path × Errc)) (i : Nat) : List String :=
  match failedItems[i]? with
  | none => []
  | some r =>
    failureLine r :: (if i = 4 ∧ failedItems.length > 5 then [moreLine failedItems] else [])

/-- What `performAction` prints when `failedItems` is not empty: a heading, the rounds
`i = 0, ..., min(5, int(failedItems.size())) - 1` of the loop, and two hints. -/
def failureListing (a : Action) (failedItems : List (Path × Errc)) : List String :=
  ["\x1b[38;5;196m╳ Clipboard couldn't " ++ (if a = Action.Copy then "copy" else "cut")
      ++ " these items.\x1b[0m\n"]
  ++ ((List.range (min 5 (toInt32 failedItems.length)).toNat).map
        (listingRound failedItems)).flatten
  ++ ["\x1b[38;5;219m▏ See if you have the needed permissions, or\x1b[0m\n",
      "\x1b[38;5;219m▏ try double-checking the spelling of the files or what directory you're in.\x1b[0m\n"]

/-- The last loop of `performAction`: for each record, `std::remove` of every item equal to
its path. -/
def eraseFailed (items : List Path) (failedItems : List (Path × Errc)) : List Path :=
  failedItems.foldl (fun its r => its.filter (fun p => p ≠ r.1)) items

/-- The transfer part of `performAction`: the state after the branch for the action, and
`failedItems`. -/
def transfer (w : World) : World × List (Path × Errc) :=
  match w.action with
  | Action.Copy => transferLoop copyItem w
  | Action.Cut => transferLoop cutItem w
  | Action.Paste => (pasteAll w, [])

/-- The source's `performAction`. -/
def performAction (w : World) : World :=
  match transfer w with
  | (w1, failedItems) =>
    let w2 : World :=
      if failedItems.length > 0 then
        { w1 with out := w1.out ++ failureListing w1.action failedItems }
      else w1
    { w2 with items := eraseFailed w2.items failedItems }

/-- One round of the Copy loop of `countSuccessesAndFailures`. -/
def countCopy (w : World) (f : Path) : World :=
  if Fs.is_directory w.fs w.cwd f then
    if Fs.exists w.fs w.cwd (w.filepath.append f.parent_path.filename) then
      { w with directories_success := inc32 w.directories_success }
    else w
  else
    if Fs.exists w.fs w.cwd (w.filepath.append f.filename) then
      { w with files_success := inc32 w.files_success }
    else w

/-- One round of the Cut loop of `countSuccessesAndFailures`. -/
def countCut (w : World) (f : Path) : World :=
  if Fs.is_directory w.fs w.cwd (w.filepath.append f.parent_path.filename) then
    if Fs.exists w.fs w.cwd (w.filepath.append f.parent_path.filename) then
      { w with directories_success := inc32 w.directories_success }
    else w
  else
    if Fs.exists w.fs w.cwd (w.filepath.append f.filename) then
      { w with files_success := inc32 w.files_success }
    else w

/-- The source's `countSuccessesAndFailures`.  Its calls of `fs::is_directory` and
`fs::exists` stand outside any `try`; within the scope of the model they raise nothing. -/
def countSuccessesAndFailures (w : World) : World :=
  match w.action with
  | Action.Copy => w.items.foldl countCopy w
  | Action.Cut => w.items.foldl countCut w
  | Action.Paste => w

/-- The source's `showSuccesses`.  `items.at(0)` raises `out_of_range` on an empty list. -/
def showSuccesses (w : World) : Step :=
  if (decide (w.files_success ≥ 1)) ≠ (decide (w.directories_success ≥ 1)) then
    match w.action with
    | Action.Copy =>
      match w.items with
      | [] => Except.error (Abort.out_of_range, w)
      | f :: _ => Except.ok (w.print ("\x1b[38;5;40m√ Copied " ++ f.string ++ "\x1b[0m\n"))
    | Action.Cut =>
      match w.items with
      | [] => Except.error (Abort.out_of_range, w)
      | f :: _ => Except.ok (w.print ("\x1b[38;5;40m√ Cut " ++ f.string ++ "\x1b[0m\n"))
    | Action.Paste => Except.ok w
  else if w.files_success > 1 ∧ w.directories_success = 0 then
    match w.action with
    | Action.Copy =>
      Except.ok (w.print ("\x1b[38;5;40m√ Copied " ++ fmtUnsigned w.files_success ++ " files\x1b[0m\n"))
    | Action.Cut =>
      Except.ok (w.print ("\x1b[38;5;40m√ Cut " ++ fmtUnsigned w.files_success ++ " files\x1b[0m\n"))
    | Action.Paste => Except.ok w
  else if w.files_success = 0 ∧ w.directories_success > 1 then
    match w.action with
    | Action.Copy =>
      Except.ok (w.print ("\x1b[38;5;40m√ Copied " ++ fmtUnsigned w.directories_success
        ++ " directories\x1b[0m\n"))
    | Action.Cut =>
      Except.ok (w.print ("\x1b[38;5;40m√ Cut " ++ fmtUnsigned w.directories_success
        ++ " directories\x1b[0m\n"))
    | Action.Paste => Except.ok w
  else if w.files_success ≥ 1 ∧ w.directories_success ≥ 1 then
    match w.action with
    | Action.Copy =>
      Except.ok (w.print ("\x1b[38;5;40m√ Copied " ++ fmtUnsigned w.files_success ++ " files and "
        ++ fmtUnsigned w.directories_success ++ " directories\x1b[0m\n"))
    | Action.Cut =>
      Except.ok (w.print ("\x1b[38;5;40m√ Cut " ++ fmtUnsigned w.files_success ++ " files and "
        ++ fmtUnsigned w.directories_success ++ " directories\x1b[0m\n"))
    | Action.Paste => Except.ok w
  else Except.ok w

/-- The state in which `main` starts: the globals as the source initialises them. -/
def World.initial (fs : Node) (cwd tmp : Loc) : World :=
  { fs := fs, cwd := cwd, tmp := tmp, out := [], filepath := { root := false, comps := [] },
    action := Action.Cut, items := [], files_success := 0, directories_success := 0 }

/-- The calls of `main` before the staging directory is touched: `setupVariables`,
`checkFlags`, `setupAction`, `checkForNoItems`, `setupIndicator`. -/
def frontEnd (argv : List String) (w : World) : Step :=
  match setupVariables argv w with
  | Except.error a => Except.error a
  | Except.ok w1 =>
    match checkFlags argv w1 with
    | Except.error a => Except.error a
    | Except.ok w2 =>
      match setupAction argv w2 with
      | Except.error a => Except.error a
      | Except.ok w3 =>
        match checkForNoItems w3 with
        | Except.error a => Except.error a
        | Except.ok w4 => Except.ok (setupIndicator w4)

/-- The calls of `main` after `setupTempDirectory`: `performAction`,
`countSuccessesAndFailures`, `showSuccesses`. -/
def core (w : World) : Step :=
  showSuccesses (countSuccessesAndFailures (performAction w))

/-- The `try` block of `main`. -/
def mainBody (argv : List String) (w : World) : Step :=
  match frontEnd argv w with
  | Except.error a => Except.error a
  | Except.ok w1 =>
    match setupTempDirectory w1 with
    | Except.error a => Except.error a
    | Except.ok w2 => core w2

/-- The source's `main`: the exit code and the final state.  An exception that reaches the
handler prints the internal-error line and exits with 1. -/
def main (argv : List String) (w : World) : Nat × World :=
  match mainBody argv w with
  | Except.ok w1 => (0, w1)
  | Except.error (Abort.exit code, w1) => (code, w1)
  | Except.error (a, w1) =>
    (1, w1.print ("\x1b[38;5;196m╳ Internal error: " ++ a.what
      ++ "\n▏ This is probably a bug.\x1b[0m\n"))

/-! ## Specification-side definitions

Used to state what the loops of `performAction` compute; not part of the program. -/

/-- The `try` block of the transfer loop of an action. -/
def tryBlock : Action → World → Path → World × Option Errc
  | Action.Copy => copyItem
  | Action.Cut => cutItem
  | Action.Paste => fun w _ => (w, none)

/-- The attempts of a transfer loop, in order: each item with the outcome of its `try`
block, run in the state that the attempts before it left. -/
def attempts (item : World → Path → World × Option Errc) :
    World → List Path → List (Path × Option Errc)
  | _, [] => []
  | w, f :: rest => (f, (item w f).2) :: attempts item (item w f).1 rest

/-- The state after every item has been attempted in order. -/
def afterAll (item : World → Path → World × Option Errc) : World → List Path → World
  | w, [] => w
  | w, f :: rest => afterAll item (item w f).1 rest

/-- The failure records of a list of attempts: the attempts that raised, in order, each with
the path of its item. -/
def recorded (l : List (Path × Option Errc)) : List (Path × Errc) :=
  l.filterMap (fun a => a.2.map (fun e => (a.1, e)))

/-- The globals that a transfer loop leaves alone agree in two states. -/
def SameGlobals (w w1 : World) : Prop :=
  w1.items = w.items ∧ w1.action = w.action ∧ w1.filepath = w.filepath ∧ w1.out = w.out
    ∧ w1.files_success = w.files_success ∧ w1.directories_success = w.directories_success
    ∧ w1.tmp = w.tmp

/-- An example filesystem: an empty staging directory `/tmp/Clipboard`, and a directory
`/home/u` with three files and the directories `x` and `y`, each holding a file `a.txt`,
`x` also a symbolic link; next to it the empty directory `/home/v`. -/
def exampleFs : Node :=
  Node.dir
    [("tmp", Node.dir [("Clipboard", Node.dir [])]),
     ("home", Node.dir
       [("u", Node.dir
         [("a.txt", Node.file "alpha"),
          ("b.txt", Node.file "beta"),
          ("report.txt", Node.file "figures"),
          ("x", Node.dir [("a.txt", Node.file "from x"), ("link", Node.symlink "a.txt")]),
          ("y", Node.dir [("a.txt", Node.file "from y")])]),
        ("v", Node.dir [])])]

/-- The start of a run in `/home/u` on the example filesystem, temp directory `/tmp`. -/
def exampleWorld : World :=
  World.initial exampleFs ["home", "u"] ["tmp"]

/-- The state of the example at the call of `performAction` for an action and items. -/
def exampleAt (a : Action) (items : List String) : World :=
  { exampleWorld with
    filepath := (Path.ofLoc ["tmp"]).append (Path.ofString "Clipboard")
    action := a
    items := items.map Path.ofString }

/-- The usage errors of the command line: the action argument is missing, it is none of cut,
copy and paste, or it is cut or copy and no item follows it. -/
def usageError (argv : List String) : Bool :=
  match argv[1]? with
  | none => true
  | some a =>
    decide ((a ≠ "cut" ∧ a ≠ "copy" ∧ a ≠ "paste") ∨ ((a = "cut" ∨ a = "copy") ∧ argv.length < 3))

/-- The start of a run in `/home/u` on the example filesystem when the temp directory of
the environment, `/nowhere`, does not exist. -/
def noTempWorld : World :=
  World.initial exampleFs ["home", "u"] ["nowhere"]

/-- The start of a run in `/home/u` on the example filesystem without its staging
directory. -/
def noStagingWorld : World :=
  World.initial (exampleFs.erase ["tmp", "Clipboard"]) ["home", "u"] ["tmp"]

/-- The state in which `frontEnd` ends, whether it returns or stops the run. -/
def frontState (argv : List String) (w : World) : World :=
  match frontEnd argv w with
  | Except.ok w1 => w1
  | Except.error (_, w1) => w1

/-- The start of a run in `/home/u` on the example filesystem after an earlier run left
`old.txt` in the staging directory. -/
def usedStagingWorld : World :=
  World.initial
    (Node.dir
      [("tmp", Node.dir [("Clipboard", Node.dir [("old.txt", Node.file "old")])]),
       ("home", Node.dir [("u", Node.dir [("a.txt", Node.file "alpha")])])])
    ["home", "u"] ["tmp"]

mutual
/-- No directory of the tree lists a name twice, as on a real filesystem. -/
def Node.wf : Node → Bool
  | Node.file _ => true
  | Node.symlink _ => true
  | Node.dir ch => wfChildren ch
/-- The entries of a directory have distinct names and are themselves well formed. -/
def wfChildren : List (String × Node) → Bool
  | [] => true
  | (x, c) :: rest => c.wf && (lookupChild x rest).isNone && wfChildren rest
end

mutual
/-- Whether `fs::copy` puts `src` at its destination path itself and raises nothing, given
what is at that path: a regular file goes over nothing or over a regular file, a link over
nothing, a directory over nothing or over a directory that takes each of its entries in the
same way. -/
def fits : Node → Option Node → Bool
  | Node.file _, dst =>
    match dst with
    | none => true
    | some (Node.file _) => true
    | some _ => false
  | Node.symlink _, dst =>
    match dst with
    | none => true
    | some _ => false
  | Node.dir ch, dst =>
    match dst with
    | none => true
    | some (Node.dir dch) => fitsChildren ch dch
    | some _ => false
/-- Every entry of a source directory fits what the destination directory holds under its
name. -/
def fitsChildren : List (String × Node) → List (String × Node) → Bool
  | [], _ => true
  | (x, c) :: rest, dch => fits c (lookupChild x dch) && fitsChildren rest dch
end

mutual
/-- The object `dst` holds all of `src`: the same bytes for a regular file, the same target
for a link, and for a directory a directory that holds, under the same name, all of every
entry of `src`; it may have further entries. -/
def reproduced : Node → Node → Bool
  | Node.file c, dst =>
    match dst with
    | Node.file c1 => decide (c = c1)
    | _ => false
  | Node.symlink t, dst =>
    match dst with
    | Node.symlink t1 => decide (t = t1)
    | _ => false
  | Node.dir ch, dst =>
    match dst with
    | Node.dir dch => reproducedChildren ch dch
    | _ => false
/-- Every entry of the first list is reproduced by the entry of that name in the second. -/
def reproducedChildren : List (String × Node) → List (String × Node) → Bool
  | [], _ => true
  | (x, c) :: rest, dch =>
    (match lookupChild x dch with
      | some d => reproduced c d
      | none => false) && reproducedChildren rest dch
end

/-! ## Lemmas on integers and the listing -/

theorem toInt32_of_lt (n : Nat) (h : n < 2 ^ 31) : toInt32 n = (n : Int) := by
  unfold toInt32
  have h1 : n % 2 ^ 32 = n := Nat.mod_eq_of_lt (by omega)
  rw [h1, if_pos h]

theorem inc32_le (n : Nat) : inc32 n ≤ n + 1 :=
  Nat.mod_le _ _

theorem moreLine_eq (failed : List (Path × Errc)) (hK : failed.length < 2 ^ 31)
    (h5 : 5 ≤ failed.length) :
    moreLine failed =
      "\x1b[38;5;196m▏ ...and " ++ toString (failed.length - 5) ++ " more.\x1b[0m\n" := by
  unfold moreLine
  rw [toInt32_of_lt _ hK]
  have : ((failed.length : Int) - 5) = ((failed.length - 5 : Nat) : Int) := by omega
  rw [this]
  rfl

theorem listing_rounds (failed : List (Path × Errc)) :
    ((List.range (min 5 failed.length)).map (listingRound failed)).flatten
      = (failed.take 5).map failureLine
        ++ (if 5 < failed.length then [moreLine failed] else []) := by
  match failed with
  | [] => simp
  | [r1] => simp [List.range_succ, listingRound]
  | [r1, r2] => simp [List.range_succ, listingRound]
  | [r1, r2, r3] => simp [List.range_succ, listingRound]
  | [r1, r2, r3, r4] => simp [List.range_succ, listingRound]
  | [r1, r2, r3, r4, r5] => simp [List.range_succ, listingRound]
  | r1 :: r2 :: r3 :: r4 :: r5 :: r6 :: rest =>
    have hm : min 5 (r1 :: r2 :: r3 :: r4 :: r5 :: r6 :: rest).length = 5 := by
      simp only [List.length_cons]; omega
    rw [hm]
    simp [List.range_succ, listingRound]

theorem failureListing_eq (a : Action) (failed : List (Path × Errc))
    (hK : failed.length < 2 ^ 31) :
    failureListing a failed =
      ["\x1b[38;5;196m╳ Clipboard couldn't " ++ (if a = Action.Copy then "copy" else "cut")
        ++ " these items.\x1b[0m\n"]
      ++ (failed.take 5).map failureLine
      ++ (if 5 < failed.length then
            ["\x1b[38;5;196m▏ ...and " ++ toString (failed.length - 5) ++ " more.\x1b[0m\n"]
          else [])
      ++ ["\x1b[38;5;219m▏ See if you have the needed permissions, or\x1b[0m\n",
          "\x1b[38;5;219m▏ try double-checking the spelling of the files or what directory you're in.\x1b[0m\n"] := by
  unfold failureListing
  rw [toInt32_of_lt _ hK]
  have hm : (min (5 : Int) (failed.length : Int)).toNat = min 5 failed.length := by omega
  rw [hm, listing_rounds]
  by_cases h5 : 5 < failed.length
  · rw [if_pos h5, if_pos h5, moreLine_eq failed hK (by omega)]
    simp
  · rw [if_neg h5, if_neg h5]
    simp

/-! ## Lemmas on the transfer loops -/

theorem SameGlobals.refl (w : World) : SameGlobals w w :=
  ⟨rfl, rfl, rfl, rfl, rfl, rfl, rfl⟩

theorem SameGlobals.trans {w w1 w2 : World} (h1 : SameGlobals w w1) (h2 : SameGlobals w1 w2) :
    SameGlobals w w2 := by
  obtain ⟨a1, a2, a3, a4, a5, a6, a7⟩ := h1
  obtain ⟨b1, b2, b3, b4, b5, b6, b7⟩ := h2
  exact ⟨b1.trans a1, b2.trans a2, b3.trans a3, b4.trans a4, b5.trans a5, b6.trans a6,
    b7.trans a7⟩

theorem copyItem_sameGlobals (w : World) (f : Path) : SameGlobals w (copyItem w f).1 := by
  unfold copyItem
  split
  · split
    · exact SameGlobals.refl w
    · split
      exact SameGlobals.refl w
  · split
    exact SameGlobals.refl w

theorem cutItem_sameGlobals (w : World) (f : Path) : SameGlobals w (cutItem w f).1 := by
  unfold cutItem
  split
  · split
    · exact SameGlobals.refl w
    · split
      exact SameGlobals.refl w
  · split
    exact SameGlobals.refl w

theorem tryBlock_sameGlobals (a : Action) (w : World) (f : Path) :
    SameGlobals w (tryBlock a w f).1 := by
  cases a
  · exact cutItem_sameGlobals w f
  · exact copyItem_sameGlobals w f
  · exact SameGlobals.refl w

theorem afterAll_sameGlobals (item : World → Path → World × Option Errc)
    (hitem : ∀ w f, SameGlobals w (item w f).1) (items : List Path) (w : World) :
    SameGlobals w (afterAll item w items) := by
  induction items generalizing w with
  | nil => exact SameGlobals.refl w
  | cons f rest ih => exact (hitem w f).trans (ih _)

theorem foldl_transferStep (item : World → Path → World × Option Errc) (items : List Path)
    (w : World) (acc : List (Path × Errc)) :
    items.foldl (transferStep item) (w, acc)
      = (afterAll item w items, acc ++ recorded (attempts item w items)) := by
  induction items generalizing w acc with
  | nil => simp [afterAll, attempts, recorded]
  | cons f rest ih =>
    have hstep : transferStep item (w, acc) f
        = ((item w f).1, acc ++ recorded [(f, (item w f).2)]) := by
      unfold transferStep
      cases item w f with
      | mk w1 r => cases r <;> simp [recorded]
    rw [List.foldl_cons, hstep, ih]
    simp [afterAll, attempts, recorded, List.filterMap_cons]
    cases (item w f).2 <;> simp

theorem transferLoop_eq (item : World → Path → World × Option Errc) (w : World) :
    transferLoop item w = (afterAll item w w.items, recorded (attempts item w w.items)) := by
  unfold transferLoop
  rw [foldl_transferStep]
  simp

theorem attempts_map_fst (item : World → Path → World × Option Errc) (items : List Path)
    (w : World) : (attempts item w items).map Prod.fst = items := by
  induction items generalizing w with
  | nil => rfl
  | cons f rest ih => simp [attempts, ih]

theorem recorded_sublist (l : List (Path × Option Errc)) :
    ((recorded l).map Prod.fst).Sublist (l.map Prod.fst) := by
  induction l with
  | nil => simp [recorded]
  | cons a rest ih =>
    obtain ⟨f, r⟩ := a
    cases r with
    | none =>
      have : recorded ((f, none) :: rest) = recorded rest := by simp [recorded]
      rw [this]
      exact List.Sublist.cons _ ih
    | some e =>
      have : recorded ((f, some e) :: rest) = (f, e) :: recorded rest := by simp [recorded]
      rw [this]
      exact List.Sublist.cons₂ _ ih

theorem attempts_append (item : World → Path → World × Option Errc) (xs ys : List Path)
    (w : World) :
    attempts item w (xs ++ ys)
      = attempts item w xs ++ attempts item (afterAll item w xs) ys := by
  induction xs generalizing w with
  | nil => rfl
  | cons f rest ih => simp [attempts, afterAll, ih]

theorem transfer_eq (w : World) (h : w.action ≠ Action.Paste) :
    transfer w = (afterAll (tryBlock w.action) w w.items,
      recorded (attempts (tryBlock w.action) w w.items)) := by
  unfold transfer
  cases ha : w.action with
  | Cut => simp only [tryBlock]; exact transferLoop_eq _ _
  | Copy => simp only [tryBlock]; exact transferLoop_eq _ _
  | Paste => exact absurd ha h

theorem transfer_paste (w : World) (h : w.action = Action.Paste) :
    transfer w = (pasteAll w, []) := by
  unfold transfer
  rw [h]

theorem transfer_failed_sublist (w : World) :
    ((transfer w).2.map Prod.fst).Sublist w.items := by
  by_cases h : w.action = Action.Paste
  · rw [transfer_paste w h]
    simp
  · rw [transfer_eq w h]
    have := recorded_sublist (attempts (tryBlock w.action) w w.items)
    rw [attempts_map_fst] at this
    exact this

theorem transfer_sameGlobals (w : World) (h : w.action ≠ Action.Paste) :
    SameGlobals w (transfer w).1 := by
  rw [transfer_eq w h]
  exact afterAll_sameGlobals _ (tryBlock_sameGlobals _) _ _

/-! ## Lemmas on erasing and counting -/

theorem eraseFailed_eq_filter (failed : List (Path × Errc)) (items : List Path) :
    eraseFailed items failed = items.filter (fun p => p ∉ failed.map Prod.fst) := by
  unfold eraseFailed
  induction failed generalizing items with
  | nil => simp
  | cons r rest ih =>
    rw [List.foldl_cons, ih, List.filter_filter]
    congr 1
    funext p
    simp only [List.map_cons, List.mem_cons, not_or, decide_not, Bool.decide_and,
      Bool.and_comm]

theorem countCopy_step (w : World) (f : Path) :
    (countCopy w f).files_success + (countCopy w f).directories_success
        ≤ w.files_success + w.directories_success + 1
      ∧ (countCopy w f).items = w.items ∧ (countCopy w f).action = w.action
      ∧ (countCopy w f).out = w.out := by
  have h1 := inc32_le w.files_success
  have h2 := inc32_le w.directories_success
  unfold countCopy
  split <;> split <;> simp <;> omega

theorem countCut_step (w : World) (f : Path) :
    (countCut w f).files_success + (countCut w f).directories_success
        ≤ w.files_success + w.directories_success + 1
      ∧ (countCut w f).items = w.items ∧ (countCut w f).action = w.action
      ∧ (countCut w f).out = w.out := by
  have h1 := inc32_le w.files_success
  have h2 := inc32_le w.directories_success
  unfold countCut
  split <;> split <;> simp <;> omega

theorem foldl_count_le (step : World → Path → World)
    (hstep : ∀ w f, (step w f).files_success + (step w f).directories_success
        ≤ w.files_success + w.directories_success + 1
      ∧ (step w f).items = w.items ∧ (step w f).action = w.action ∧ (step w f).out = w.out)
    (l : List Path) (w : World) :
    (l.foldl step w).files_success + (l.foldl step w).directories_success
        ≤ w.files_success + w.directories_success + l.length
      ∧ (l.foldl step w).items = w.items ∧ (l.foldl step w).action = w.action
      ∧ (l.foldl step w).out = w.out := by
  induction l generalizing w with
  | nil => simp
  | cons f rest ih =>
    obtain ⟨a1, a2, a3, a4⟩ := hstep w f
    obtain ⟨b1, b2, b3, b4⟩ := ih (step w f)
    rw [List.foldl_cons]
    refine ⟨?_, b2.trans a2, b3.trans a3, b4.trans a4⟩
    simp only [List.length_cons]
    omega

theorem count_le (w : World) :
    (countSuccessesAndFailures w).files_success
        + (countSuccessesAndFailures w).directories_success
        ≤ w.files_success + w.directories_success + w.items.length
      ∧ (countSuccessesAndFailures w).items = w.items
      ∧ (countSuccessesAndFailures w).action = w.action
      ∧ (countSuccessesAndFailures w).out = w.out := by
  unfold countSuccessesAndFailures
  cases ha : w.action with
  | Cut =>
    have h := foldl_count_le countCut countCut_step w.items w
    rw [ha] at h
    exact h
  | Copy =>
    have h := foldl_count_le countCopy countCopy_step w.items w
    rw [ha] at h
    exact h
  | Paste => simp [ha]

theorem performAction_items (w : World) :
    (performAction w).items = (transfer w).1.items.filter
      (fun p => p ∉ (transfer w).2.map Prod.fst) := by
  unfold performAction
  cases transfer w with
  | mk w1 failed =>
    simp only []
    rw [eraseFailed_eq_filter]
    split <;> rfl

theorem performAction_globals (w : World) :
    (performAction w).action = (transfer w).1.action
      ∧ (performAction w).files_success = (transfer w).1.files_success
      ∧ (performAction w).directories_success = (transfer w).1.directories_success
      ∧ (performAction w).fs = (transfer w).1.fs := by
  unfold performAction
  cases transfer w with
  | mk w1 failed =>
    simp only []
    split <;> exact ⟨rfl, rfl, rfl, rfl⟩

theorem pasteAll_globals (w : World) :
    (pasteAll w).items = w.items ∧ (pasteAll w).action = w.action
      ∧ (pasteAll w).files_success = w.files_success
      ∧ (pasteAll w).directories_success = w.directories_success := by
  unfold pasteAll
  split
  · exact ⟨rfl, rfl, rfl, rfl⟩
  · split <;> exact ⟨rfl, rfl, rfl, rfl⟩

theorem transfer_globals (w : World) :
    (transfer w).1.items = w.items ∧ (transfer w).1.action = w.action
      ∧ (transfer w).1.files_success = w.files_success
      ∧ (transfer w).1.directories_success = w.directories_success := by
  by_cases h : w.action = Action.Paste
  · rw [transfer_paste w h]
    exact pasteAll_globals w
  · obtain ⟨a1, a2, _, _, a5, a6, _⟩ := transfer_sameGlobals w h
    exact ⟨a1, a2, a5, a6⟩

/-! ## Lemmas on `showSuccesses` -/

theorem showSuccesses_ok_of_le (w : World)
    (h : w.files_success + w.directories_success ≤ w.items.length) :
    ∃ w1, showSuccesses w = Except.ok w1 := by
  unfold showSuccesses
  split
  · rename_i hx
    have hne : w.items ≠ [] := by
      intro hnil
      rw [hnil] at h
      simp only [List.length_nil, Nat.le_zero, Nat.add_eq_zero] at h
      rw [h.1, h.2] at hx
      exact hx rfl
    cases hitems : w.items with
    | nil => exact absurd hitems hne
    | cons f rest => cases w.action <;> exact ⟨_, rfl⟩
  · split
    · cases w.action <;> exact ⟨_, rfl⟩
    · split
      · cases w.action <;> exact ⟨_, rfl⟩
      · split
        · cases w.action <;> exact ⟨_, rfl⟩
        · exact ⟨_, rfl⟩

theorem showSuccesses_zero (w : World) (hf : w.files_success = 0)
    (hd : w.directories_success = 0) : showSuccesses w = Except.ok w := by
  unfold showSuccesses
  simp [hf, hd]

theorem counted_le_remaining (w : World) (hf : w.files_success = 0)
    (hd : w.directories_success = 0) :
    (countSuccessesAndFailures (performAction w)).files_success
      + (countSuccessesAndFailures (performAction w)).directories_success
      ≤ (countSuccessesAndFailures (performAction w)).items.length := by
  obtain ⟨c1, c2, _, _⟩ := count_le (performAction w)
  obtain ⟨_, p2, p3, _⟩ := performAction_globals w
  obtain ⟨_, _, t3, t4⟩ := transfer_globals w
  rw [c2]
  rw [p2, p3, t3, t4, hf, hd] at c1
  omega

/-! ## Lemmas on the tree -/

theorem lookupChild_putChild_self (x : String) (v : Node) (ch : List (String × Node)) :
    lookupChild x (putChild x v ch) = some v := by
  induction ch with
  | nil => simp [putChild, lookupChild]
  | cons e rest ih =>
    obtain ⟨y, n⟩ := e
    by_cases h : y = x
    · simp [putChild, lookupChild, h]
    · simp [putChild, lookupChild, h, ih]

theorem get_cons_dir (ch : List (String × Node)) (x : String) (rest : Loc) :
    (Node.dir ch).get (x :: rest)
      = match lookupChild x ch with
        | some c => c.get rest
        | none => none := by
  rw [Node.get]

theorem get_cons_some {fs : Node} {x : String} {rest : Loc} {n : Node}
    (h : fs.get (x :: rest) = some n) :
    ∃ ch c, fs = Node.dir ch ∧ lookupChild x ch = some c ∧ c.get rest = some n := by
  cases fs with
  | file c => simp [Node.get] at h
  | symlink t => simp [Node.get] at h
  | dir ch =>
    rw [get_cons_dir] at h
    cases hl : lookupChild x ch with
    | none => simp [hl] at h
    | some c =>
      rw [hl] at h
      exact ⟨ch, c, rfl, hl, h⟩

theorem isDirAt_of_get_append (a b : Loc) (fs n : Node) (h : fs.get (a ++ b) = some n)
    (hb : b ≠ []) : fs.isDirAt a = true := by
  induction a generalizing fs with
  | nil =>
    cases b with
    | nil => exact absurd rfl hb
    | cons x rest =>
      obtain ⟨ch, c, hfs, _, _⟩ := get_cons_some h
      rw [hfs]
      rfl
  | cons y a1 ih =>
    obtain ⟨ch, c, hfs, hl, hc⟩ := get_cons_some (show fs.get (y :: (a1 ++ b)) = some n from h)
    have := ih c hc
    unfold Node.isDirAt at this ⊢
    rw [hfs, get_cons_dir, hl]
    exact this

theorem isDirAt_take (fs : Node) (l : Loc) (h : fs.isDirAt l = true) (k : Nat) :
    fs.isDirAt (l.take k) = true := by
  by_cases hk : l.drop k = []
  · have : l.take k = l := by
      have := List.take_append_drop k l
      rw [hk, List.append_nil] at this
      exact this
    rw [this]
    exact h
  · unfold Node.isDirAt at h
    cases hg : fs.get l with
    | none => simp [hg] at h
    | some n =>
      have hg1 : fs.get (l.take k ++ l.drop k) = some n := by
        rw [List.take_append_drop]
        exact hg
      exact isDirAt_of_get_append _ _ _ _ hg1 hk

theorem walk_names (fs : Node) (names : List String) (cur : Loc)
    (h : ∀ k, k < names.length → fs.isDirAt (cur ++ names.take k) = true) :
    walk fs cur (names.map Comp.name) = some (cur ++ names) := by
  induction names generalizing cur with
  | nil => simp [walk]
  | cons x rest ih =>
    have h0 : fs.isDirAt cur = true := by
      have := h 0 (by simp)
      simpa using this
    rw [List.map_cons, walk, if_pos h0]
    rw [ih (cur ++ [x])]
    · simp
    · intro k hk
      have := h (k + 1) (by simpa using hk)
      simpa using this

theorem walk_names_eq (fs : Node) (names : List String) (cur l : Loc)
    (h : walk fs cur (names.map Comp.name) = some l) : l = cur ++ names := by
  induction names generalizing cur with
  | nil =>
    simp [walk] at h
    simp [h]
  | cons x rest ih =>
    rw [List.map_cons, walk] at h
    split at h
    · have := ih _ h
      simpa using this
    · simp at h

theorem resolve_ofLoc (fs : Node) (cwd l : Loc) :
    resolve fs cwd (Path.ofLoc l) = walk fs [] (l.map Comp.name) := by
  simp [resolve, Path.ofLoc]

theorem resolve_ofLoc_of_parent (fs : Node) (cwd l : Loc) (x : String)
    (h : fs.isDirAt l = true) : resolve fs cwd (Path.ofLoc (l ++ [x])) = some (l ++ [x]) := by
  rw [resolve_ofLoc]
  have := walk_names fs (l ++ [x]) [] (by
    intro k hk
    have hk1 : k ≤ l.length := by
      simp at hk
      omega
    rw [List.nil_append, List.take_append_of_le_length hk1]
    exact isDirAt_take fs l h k)
  simpa using this

theorem resolve_ofLoc_of_isDir (fs : Node) (cwd l : Loc) (h : fs.isDirAt l = true) :
    resolve fs cwd (Path.ofLoc l) = some l := by
  rw [resolve_ofLoc]
  have := walk_names fs l [] (by
    intro k _
    rw [List.nil_append]
    exact isDirAt_take fs l h k)
  simpa using this

theorem is_directory_ofLoc (fs : Node) (cwd l : Loc) :
    Fs.is_directory fs cwd (Path.ofLoc l) = fs.isDirAt l := by
  cases h : fs.isDirAt l with
  | true =>
    unfold Fs.is_directory stat lstat
    rw [resolve_ofLoc_of_isDir fs cwd l h]
    unfold Node.isDirAt at h
    cases hg : fs.get l with
    | none => simp [hg] at h
    | some n =>
      cases n with
      | file c => simp [hg] at h
      | symlink t => simp [hg] at h
      | dir ch => simp [hg]
  | false =>
    unfold Fs.is_directory stat lstat
    cases hr : resolve fs cwd (Path.ofLoc l) with
    | none => rfl
    | some l1 =>
      rw [resolve_ofLoc] at hr
      have hl := walk_names_eq fs l [] l1 hr
      simp only [List.nil_append] at hl
      subst hl
      unfold Node.isDirAt at h
      cases hg : fs.get l1 with
      | none => simp [hg]
      | some n =>
        cases n with
        | file c => simp [hg]
        | symlink t => simp [hg]
        | dir ch => simp [hg] at h

/-! ## Lemmas on the calls before the transfer -/

theorem ofLoc_append_name (l : Loc) (x : String) :
    (Path.ofLoc l).append { root := false, comps := [Comp.name x] } = Path.ofLoc (l ++ [x]) := by
  unfold Path.append Path.ofLoc Path.has_filename
  simp only [Bool.false_eq_true, if_false]
  cases h : (l.map Comp.name).getLast? with
  | none =>
    have : l = [] := by simpa using h
    subst this
    simp
  | some c =>
    have hne : l ≠ [] := by
      intro hnil
      subst hnil
      simp at h
    have hc : c = Comp.name (l.getLast hne) := by
      rw [List.getLast?_map, List.getLast?_eq_getLast _ hne] at h
      simpa using h.symm
    subst hc
    simp

theorem stagingPath_eq (tmp : Loc) :
    (Path.ofLoc tmp).append (Path.ofString "Clipboard") = Path.ofLoc (tmp ++ ["Clipboard"]) := by
  have hq : Path.ofString "Clipboard" = { root := false, comps := [Comp.name "Clipboard"] } := by
    decide
  rw [hq, ofLoc_append_name]

theorem setupVariables_ok (argv : List String) (w : World) (htmp : w.fs.isDirAt w.tmp = true) :
    setupVariables argv w
      = Except.ok { w with filepath := Path.ofLoc (w.tmp ++ ["Clipboard"]),
                           items := w.items ++ (argv.drop 2).map Path.ofString } := by
  unfold setupVariables Fs.temp_directory_path
  rw [if_pos htmp]
  simp only []
  rw [stagingPath_eq]

theorem setupVariables_error (argv : List String) (w : World)
    (htmp : w.fs.isDirAt w.tmp = false) :
    setupVariables argv w
      = Except.error (Abort.filesystem_error "temp_directory_path" Errc.not_a_directory, w) := by
  unfold setupVariables Fs.temp_directory_path
  simp [htmp]

theorem checkFlags_ok (argv : List String) (w : World)
    (hhelp : ∀ a ∈ argv, a ≠ "-h" ∧ a ≠ "--help") : checkFlags argv w = Except.ok w := by
  unfold checkFlags
  have : argv.any (fun a => decide (a = "-h" ∨ a = "--help")) = false := by
    rw [List.any_eq_false]
    intro a ha
    have := hhelp a ha
    simp [this.1, this.2]
  rw [this]
  rfl

theorem frontEnd_ok_inv (argv : List String) (w0 w : World)
    (h : frontEnd argv w0 = Except.ok w) :
    w.fs = w0.fs ∧ w.cwd = w0.cwd ∧ w.tmp = w0.tmp
      ∧ w.filepath = Path.ofLoc (w0.tmp ++ ["Clipboard"])
      ∧ w0.fs.isDirAt w0.tmp = true
      ∧ w.items = w0.items ++ (argv.drop 2).map Path.ofString
      ∧ w.files_success = w0.files_success ∧ w.directories_success = w0.directories_success := by
  unfold frontEnd at h
  cases htmp : w0.fs.isDirAt w0.tmp with
  | false =>
    rw [setupVariables_error argv w0 htmp] at h
    simp at h
  | true =>
    rw [setupVariables_ok argv w0 htmp] at h
    simp only [] at h
    split at h
    · simp at h
    · rename_i w2 hw2
      have e2 : w2 = { w0 with filepath := Path.ofLoc (w0.tmp ++ ["Clipboard"]),
                               items := w0.items ++ (argv.drop 2).map Path.ofString } := by
        unfold checkFlags at hw2
        split at hw2
        · simp at hw2
        · simpa using hw2.symm
      split at h
      · simp at h
      · rename_i w3 hw3
        have e3 : w3 = { w2 with action := w3.action } := by
          unfold setupAction at hw3
          split at hw3
          · split at hw3
            · split at hw3
              · cases hw3; rfl
              · split at hw3
                · cases hw3; rfl
                · split at hw3
                  · cases hw3; rfl
                  · simp at hw3
            · simp at hw3
          · simp at hw3
        split at h
        · simp at h
        · rename_i w4 hw4
          have e4 : w4 = w3 := by
            unfold checkForNoItems at hw4
            split at hw4
            · split at hw4 <;> simp at hw4
            · simpa using hw4.symm
          have e5 : w = setupIndicator w4 := by simpa using h.symm
          have e6 : ∀ v : World, (setupIndicator v).fs = v.fs ∧ (setupIndicator v).cwd = v.cwd
              ∧ (setupIndicator v).tmp = v.tmp ∧ (setupIndicator v).filepath = v.filepath
              ∧ (setupIndicator v).items = v.items
              ∧ (setupIndicator v).files_success = v.files_success
              ∧ (setupIndicator v).directories_success = v.directories_success := by
            intro v
            unfold setupIndicator
            cases v.action <;> exact ⟨rfl, rfl, rfl, rfl, rfl, rfl, rfl⟩
          obtain ⟨i1, i2, i3, i4, i5, i6, i7⟩ := e6 w4
          rw [e5, i1, i2, i3, i4, i5, i6, i7, e4, e3, e2]
          exact ⟨rfl, rfl, rfl, rfl, rfl, rfl, rfl, rfl⟩

theorem frontEnd_eq (argv : List String) (fs : Node) (cwd tmp : Loc)
    (hhelp : ∀ a ∈ argv, a ≠ "-h" ∧ a ≠ "--help") (htmp : fs.isDirAt tmp = true) :
    frontEnd argv (World.initial fs cwd tmp)
      = match setupAction argv
            { World.initial fs cwd tmp with
              filepath := Path.ofLoc (tmp ++ ["Clipboard"])
              items := (argv.drop 2).map Path.ofString } with
        | Except.error a => Except.error a
        | Except.ok w3 =>
          match checkForNoItems w3 with
          | Except.error a => Except.error a
          | Except.ok w4 => Except.ok (setupIndicator w4) := by
  unfold frontEnd
  rw [setupVariables_ok argv _ htmp]
  simp only []
  rw [checkFlags_ok argv _ hhelp]
  simp [World.initial]

theorem setupAction_cut (p : String) (rest : List String) (w : World) :
    setupAction (p :: "cut" :: rest) w = Except.ok { w with action := Action.Cut } := by
  simp [setupAction]

theorem setupAction_copy (p : String) (rest : List String) (w : World) :
    setupAction (p :: "copy" :: rest) w = Except.ok { w with action := Action.Copy } := by
  simp [setupAction]

theorem setupAction_paste (p : String) (rest : List String) (w : World) :
    setupAction (p :: "paste" :: rest) w = Except.ok { w with action := Action.Paste } := by
  simp [setupAction]

theorem setupAction_other (p a : String) (rest : List String) (w : World)
    (h1 : a ≠ "cut") (h2 : a ≠ "copy") (h3 : a ≠ "paste") :
    setupAction (p :: a :: rest) w = Except.error (Abort.exit 1, w.print msgInvalidAction) := by
  simp [setupAction, h1, h2, h3]

theorem frontEnd_usage (argv : List String) (fs : Node) (cwd tmp : Loc)
    (hhelp : ∀ a ∈ argv, a ≠ "-h" ∧ a ≠ "--help") (htmp : fs.isDirAt tmp = true) :
    (usageError argv = true →
        ∃ w1, frontEnd argv (World.initial fs cwd tmp) = Except.error (Abort.exit 1, w1)
          ∧ w1.fs = fs)
      ∧ (usageError argv = false →
        ∃ w1, frontEnd argv (World.initial fs cwd tmp) = Except.ok w1 ∧ w1.fs = fs
          ∧ w1.items = (argv.drop 2).map Path.ofString
          ∧ (argv[1]? = some "cut" → w1.action = Action.Cut)
          ∧ (argv[1]? = some "copy" → w1.action = Action.Copy)
          ∧ (argv[1]? = some "paste" → w1.action = Action.Paste)) := by
  rw [frontEnd_eq argv fs cwd tmp hhelp htmp]
  rcases argv with _ | ⟨p, _ | ⟨a, rest⟩⟩
  · constructor
    · intro _
      exact ⟨_, rfl, rfl⟩
    · intro h
      simp [usageError] at h
  · constructor
    · intro _
      exact ⟨_, rfl, rfl⟩
    · intro h
      simp [usageError] at h
  · by_cases hcut : a = "cut"
    · subst hcut
      rw [setupAction_cut]
      cases rest with
      | nil =>
        constructor
        · intro _
          exact ⟨_, rfl, rfl⟩
        · intro h
          simp [usageError] at h
      | cons i rest1 =>
        constructor
        · intro h
          simp [usageError] at h
          omega
        · intro _
          refine ⟨_, rfl, rfl, rfl, ?_, ?_, ?_⟩ <;> intro h <;> first | rfl | (simp at h)
    · by_cases hcopy : a = "copy"
      · subst hcopy
        rw [setupAction_copy]
        cases rest with
        | nil =>
          constructor
          · intro _
            exact ⟨_, rfl, rfl⟩
          · intro h
            simp [usageError] at h
        | cons i rest1 =>
          constructor
          · intro h
            simp [usageError] at h
            omega
          · intro _
            refine ⟨_, rfl, rfl, rfl, ?_, ?_, ?_⟩ <;> intro h <;> first | rfl | (simp at h)
      · by_cases hpaste : a = "paste"
        · subst hpaste
          rw [setupAction_paste]
          constructor
          · intro h
            simp [usageError] at h
          · intro _
            refine ⟨_, rfl, rfl, rfl, ?_, ?_, ?_⟩ <;> intro h <;> first | rfl | (simp at h)
        · rw [setupAction_other p a rest _ hcut hcopy hpaste]
          constructor
          · intro _
            exact ⟨_, rfl, rfl⟩
          · intro h
            simp [usageError, hcut, hcopy, hpaste] at h

/-! ## Lemmas on the staging directory -/

theorem erase_dir_cons (ch : List (String × Node)) (y : String) (rest : Loc) (h : rest ≠ []) :
    (Node.dir ch).erase (y :: rest)
      = match lookupChild y ch with
        | some c => Node.dir (putChild y (c.erase rest) ch)
        | none => Node.dir ch := by
  cases rest with
  | nil => exact absurd rfl h
  | cons z rest1 => rw [Node.erase]

theorem get_erase_child (l : Loc) (x : String) (fs : Node) (ch : List (String × Node))
    (h : fs.get l = some (Node.dir ch)) :
    (fs.erase (l ++ [x])).get l = some (Node.dir (eraseChild x ch)) := by
  induction l generalizing fs with
  | nil =>
    simp only [Node.get, Option.some.injEq] at h
    subst h
    rfl
  | cons y l1 ih =>
    obtain ⟨ch0, c, hfs, hl, hc⟩ := get_cons_some h
    subst hfs
    rw [List.cons_append, erase_dir_cons _ _ _ (by simp), hl]
    simp only []
    rw [get_cons_dir, lookupChild_putChild_self]
    exact ih c hc

theorem get_dir_of_isDirAt (fs : Node) (l : Loc) (h : fs.isDirAt l = true) :
    ∃ ch, fs.get l = some (Node.dir ch) := by
  unfold Node.isDirAt at h
  cases hg : fs.get l with
  | none => simp [hg] at h
  | some n =>
    cases n with
    | file c => simp [hg] at h
    | symlink t => simp [hg] at h
    | dir ch => exact ⟨ch, rfl⟩

theorem isDirAt_of_get_dir (fs : Node) (l : Loc) (ch : List (String × Node))
    (h : fs.get l = some (Node.dir ch)) : fs.isDirAt l = true := by
  unfold Node.isDirAt
  rw [h]

theorem remove_all_child (fs : Node) (cwd l : Loc) (x : String) (h : fs.isDirAt l = true) :
    Fs.remove_all fs cwd (Path.ofLoc (l ++ [x])) = (fs.erase (l ++ [x]), none) := by
  unfold Fs.remove_all
  rw [resolve_ofLoc_of_parent fs cwd l x h]
  cases hl : l ++ [x] with
  | nil => simp at hl
  | cons y l1 => rfl

theorem removeEntries_all (cwd l : Loc) (names : List String) (fs : Node)
    (ch : List (String × Node)) (h : fs.get l = some (Node.dir ch))
    (hnames : ∀ e ∈ ch, e.1 ∈ names) :
    ∃ fs1, removeEntries cwd (names.map (fun x => Path.ofLoc (l ++ [x]))) fs = (fs1, none)
      ∧ fs1.get l = some (Node.dir []) := by
  induction names generalizing fs ch with
  | nil =>
    have : ch = [] := by
      cases ch with
      | nil => rfl
      | cons e rest => exact absurd (hnames e (List.mem_cons_self _ _)) (List.not_mem_nil _)
    subst this
    exact ⟨fs, rfl, h⟩
  | cons x rest ih =>
    rw [List.map_cons, removeEntries, remove_all_child fs cwd l x (isDirAt_of_get_dir fs l ch h)]
    simp only []
    apply ih (fs.erase (l ++ [x])) (eraseChild x ch) (get_erase_child l x fs ch h)
    intro e he
    unfold eraseChild at he
    rw [List.mem_filter] at he
    have hne : e.1 ≠ x := by simpa using he.2
    have := hnames e he.1
    rw [List.mem_cons] at this
    rcases this with h1 | h1
    · exact absurd h1 hne
    · exact h1

theorem directory_iterator_ofLoc (fs : Node) (cwd l : Loc) (ch : List (String × Node))
    (h : fs.get l = some (Node.dir ch)) :
    Fs.directory_iterator fs cwd (Path.ofLoc l)
      = Except.ok ((ch.map Prod.fst).map (fun x => Path.ofLoc (l ++ [x]))) := by
  unfold Fs.directory_iterator stat lstat
  rw [resolve_ofLoc_of_isDir fs cwd l (isDirAt_of_get_dir fs l ch h)]
  simp only [h]
  simp [ofLoc_append_name]

theorem put_child (l : Loc) (x : String) (v : Node) (fs : Node) (h : fs.isDirAt l = true) :
    ∃ fs1, fs.put (l ++ [x]) v = some fs1 ∧ fs1.get (l ++ [x]) = some v := by
  induction l generalizing fs with
  | nil =>
    obtain ⟨ch, hg⟩ := get_dir_of_isDirAt fs [] h
    simp only [Node.get, Option.some.injEq] at hg
    subst hg
    refine ⟨Node.dir (putChild x v ch), ?_, ?_⟩
    · rw [List.nil_append, Node.put]
      cases lookupChild x ch with
      | none => simp
      | some c => simp [Node.put]
    · rw [List.nil_append, get_cons_dir, lookupChild_putChild_self]
      simp [Node.get]
  | cons y l1 ih =>
    obtain ⟨ch, hg⟩ := get_dir_of_isDirAt fs (y :: l1) h
    obtain ⟨ch0, c, hfs, hl, hc⟩ := get_cons_some hg
    subst hfs
    obtain ⟨c1, hc1, hc2⟩ := ih c (isDirAt_of_get_dir c l1 ch hc)
    refine ⟨Node.dir (putChild y c1 ch0), ?_, ?_⟩
    · rw [List.cons_append, Node.put, hl]
      simp only [hc1]
    · rw [List.cons_append, get_cons_dir, lookupChild_putChild_self]
      exact hc2

theorem mkdirs_through (fs : Node) (a : List String) (b : List Comp) (cur : Loc)
    (h : ∀ k, 1 ≤ k → k ≤ a.length → fs.isDirAt (cur ++ a.take k) = true) :
    Fs.mkdirs fs cur (a.map Comp.name ++ b) = Fs.mkdirs fs (cur ++ a) b := by
  induction a generalizing cur with
  | nil => simp
  | cons x rest ih =>
    have h1 : fs.isDirAt (cur ++ [x]) = true := by
      have := h 1 (le_refl _) (by simp)
      simpa using this
    obtain ⟨ch, hg⟩ := get_dir_of_isDirAt fs _ h1
    rw [List.map_cons, List.cons_append, Fs.mkdirs]
    simp only [hg]
    rw [ih (cur ++ [x])]
    · simp
    · intro k hk1 hk2
      have := h (k + 1) (by omega) (by simpa using hk2)
      simpa using this

theorem create_directories_missing (fs : Node) (cwd l : Loc) (x : String)
    (hdir : fs.isDirAt l = true) (hnone : fs.get (l ++ [x]) = none) :
    ∃ fs1, Fs.create_directories fs cwd (Path.ofLoc (l ++ [x])) = (fs1, none)
      ∧ fs1.get (l ++ [x]) = some (Node.dir []) := by
  obtain ⟨fs1, hput, hget⟩ := put_child l x (Node.dir []) fs hdir
  refine ⟨fs1, ?_, hget⟩
  unfold Fs.create_directories
  have hnd : Fs.is_directory fs cwd (Path.ofLoc (l ++ [x])) = false := by
    rw [is_directory_ofLoc]
    unfold Node.isDirAt
    rw [hnone]
  rw [hnd]
  simp only [Bool.false_eq_true, if_false]
  have hroot : (Path.ofLoc (l ++ [x])).root = true := rfl
  rw [if_neg (by simp [hroot]), if_pos hroot]
  have hcomps : (Path.ofLoc (l ++ [x])).comps = l.map Comp.name ++ [Comp.name x] := by
    simp [Path.ofLoc]
  rw [hcomps, mkdirs_through fs l [Comp.name x] [] (by
    intro k _ _
    rw [List.nil_append]
    exact isDirAt_take fs l hdir k)]
  rw [List.nil_append, Fs.mkdirs]
  simp only [hnone, hput]
  rfl

theorem lstat_ofLoc_child (fs : Node) (cwd l : Loc) (x : String) (h : fs.isDirAt l = true) :
    lstat fs cwd (Path.ofLoc (l ++ [x])) = fs.get (l ++ [x]) := by
  unfold lstat
  rw [resolve_ofLoc_of_parent fs cwd l x h]

theorem setupTempDirectory_cases (w : World) (tmp : Loc)
    (hfp : w.filepath = Path.ofLoc (tmp ++ ["Clipboard"])) (htmp : w.fs.isDirAt tmp = true) :
    (Fs.is_directory w.fs w.cwd w.filepath = true → w.action ≠ Action.Paste →
        ∃ w1, setupTempDirectory w = Except.ok w1
          ∧ Fs.is_directory w1.fs w1.cwd w1.filepath = true
          ∧ Fs.directory_iterator w1.fs w1.cwd w1.filepath = Except.ok []
          ∧ w1.fs.get (tmp ++ ["Clipboard"]) = some (Node.dir [])
          ∧ w1.action = w.action ∧ w1.items = w.items ∧ w1.cwd = w.cwd
          ∧ w1.filepath = w.filepath ∧ w1.out = w.out
          ∧ w1.files_success = w.files_success
          ∧ w1.directories_success = w.directories_success)
      ∧ (Fs.is_directory w.fs w.cwd w.filepath = true → w.action = Action.Paste →
        setupTempDirectory w = Except.ok w)
      ∧ (lstat w.fs w.cwd w.filepath = none →
        ∃ w1, setupTempDirectory w = Except.ok w1
          ∧ Fs.is_directory w1.fs w1.cwd w1.filepath = true
          ∧ Fs.directory_iterator w1.fs w1.cwd w1.filepath = Except.ok []
          ∧ w1.fs.get (tmp ++ ["Clipboard"]) = some (Node.dir [])
          ∧ w1.action = w.action ∧ w1.items = w.items ∧ w1.cwd = w.cwd
          ∧ w1.filepath = w.filepath ∧ w1.out = w.out
          ∧ w1.files_success = w.files_success
          ∧ w1.directories_success = w.directories_success) := by
  refine ⟨?_, ?_, ?_⟩
  · intro hdir hact
    rw [hfp, is_directory_ofLoc] at hdir
    obtain ⟨ch, hg⟩ := get_dir_of_isDirAt _ _ hdir
    obtain ⟨fs1, hrem, hget⟩ := removeEntries_all w.cwd (tmp ++ ["Clipboard"])
      (ch.map Prod.fst) w.fs ch hg (fun e he => List.mem_map_of_mem Prod.fst he)
    refine ⟨{ w with fs := fs1 }, ?_, ?_, ?_, hget, rfl, rfl, rfl, rfl, rfl, rfl, rfl⟩
    · unfold setupTempDirectory
      rw [hfp, is_directory_ofLoc, hdir, if_pos rfl, if_pos hact,
        directory_iterator_ofLoc _ _ _ ch hg]
      simp only [hrem]
    · show Fs.is_directory fs1 w.cwd w.filepath = true
      rw [hfp, is_directory_ofLoc]
      exact isDirAt_of_get_dir _ _ _ hget
    · show Fs.directory_iterator fs1 w.cwd w.filepath = Except.ok []
      rw [hfp, directory_iterator_ofLoc _ _ _ [] hget]
      rfl
  · intro hdir hact
    unfold setupTempDirectory
    rw [hdir, if_pos rfl, if_neg (by simp [hact])]
  · intro hnone
    rw [hfp, lstat_ofLoc_child _ _ _ _ htmp] at hnone
    obtain ⟨fs1, hcr, hget⟩ := create_directories_missing w.fs w.cwd tmp "Clipboard" htmp hnone
    have hnd : Fs.is_directory w.fs w.cwd (Path.ofLoc (tmp ++ ["Clipboard"])) = false := by
      rw [is_directory_ofLoc]
      unfold Node.isDirAt
      rw [hnone]
    refine ⟨{ w with fs := fs1 }, ?_, ?_, ?_, hget, rfl, rfl, rfl, rfl, rfl, rfl, rfl⟩
    · unfold setupTempDirectory
      rw [hfp, hnd]
      simp only [Bool.false_eq_true, if_false, hcr]
    · show Fs.is_directory fs1 w.cwd w.filepath = true
      rw [hfp, is_directory_ofLoc]
      exact isDirAt_of_get_dir _ _ _ hget
    · show Fs.directory_iterator fs1 w.cwd w.filepath = Except.ok []
      rw [hfp, directory_iterator_ofLoc _ _ _ [] hget]
      rfl

/-! ## Lemmas on Paste -/

theorem lookupChild_putChild_ne (x y : String) (v : Node) (ch : List (String × Node))
    (h : y ≠ x) : lookupChild y (putChild x v ch) = lookupChild y ch := by
  induction ch with
  | nil => simp [putChild, lookupChild, Ne.symm h]
  | cons e rest ih =>
    obtain ⟨z, n⟩ := e
    by_cases hz : z = x
    · subst hz
      simp [putChild, lookupChild, Ne.symm h]
    · by_cases hzy : z = y
      · subst hzy
        simp [putChild, lookupChild, hz]
      · simp [putChild, lookupChild, hz, hzy, ih]

theorem put_cons_some {fs fs1 : Node} {y : String} {rest : Loc} {v : Node}
    (h : fs.put (y :: rest) v = some fs1) :
    ∃ ch, fs = Node.dir ch
      ∧ ((∃ c c1, lookupChild y ch = some c ∧ c.put rest v = some c1
            ∧ fs1 = Node.dir (putChild y c1 ch))
        ∨ (lookupChild y ch = none ∧ rest = [] ∧ fs1 = Node.dir (putChild y v ch))) := by
  cases fs with
  | file c => simp [Node.put] at h
  | symlink t => simp [Node.put] at h
  | dir ch =>
    refine ⟨ch, rfl, ?_⟩
    rw [Node.put] at h
    cases hl : lookupChild y ch with
    | some c =>
      rw [hl] at h
      simp only [] at h
      cases hp : c.put rest v with
      | none => simp [hp] at h
      | some c1 =>
        rw [hp] at h
        simp only [Option.some.injEq] at h
        exact Or.inl ⟨c, c1, rfl, hp, h.symm⟩
    | none =>
      rw [hl] at h
      simp only [] at h
      by_cases hr : rest = []
      · rw [if_pos hr] at h
        simp only [Option.some.injEq] at h
        exact Or.inr ⟨rfl, hr, h.symm⟩
      · rw [if_neg hr] at h
        simp at h

theorem isDirAt_cons_dir (ch : List (String × Node)) (z : String) (r : Loc) :
    (Node.dir ch).isDirAt (z :: r)
      = match lookupChild z ch with
        | some c => c.isDirAt r
        | none => false := by
  unfold Node.isDirAt
  rw [get_cons_dir]
  cases lookupChild z ch <;> rfl

theorem isDirAt_put_new (l : Loc) (v : Node) (fs fs1 : Node) (l1 : Loc)
    (hnone : fs.get l = none) (hput : fs.put l v = some fs1) (h : fs.isDirAt l1 = true) :
    fs1.isDirAt l1 = true := by
  induction l generalizing fs fs1 l1 with
  | nil => simp [Node.get] at hnone
  | cons y rest ih =>
    obtain ⟨ch, hfs, hcase⟩ := put_cons_some hput
    subst hfs
    cases l1 with
    | nil =>
      rcases hcase with ⟨c, c1, _, _, e⟩ | ⟨_, _, e⟩ <;> rw [e] <;> rfl
    | cons z r =>
      rw [isDirAt_cons_dir] at h
      by_cases hz : z = y
      · subst hz
        rcases hcase with ⟨c, c1, hl, hp, e⟩ | ⟨hl, _, e⟩
        · rw [hl] at h
          simp only [] at h
          rw [get_cons_dir, hl] at hnone
          simp only [] at hnone
          rw [e, isDirAt_cons_dir, lookupChild_putChild_self]
          exact ih c c1 r hnone hp h
        · rw [hl] at h
          simp at h
      · have hl1 : ∀ u, lookupChild z (putChild y u ch) = lookupChild z ch :=
          fun u => lookupChild_putChild_ne y z u ch hz
        rcases hcase with ⟨c, c1, _, _, e⟩ | ⟨_, _, e⟩ <;>
          rw [e, isDirAt_cons_dir, hl1] <;> exact h

theorem put_existing (l : Loc) (v : Node) (fs n : Node) (h : fs.get l = some n) :
    ∃ fs1, fs.put l v = some fs1 := by
  induction l generalizing fs with
  | nil => exact ⟨v, by rw [Node.put]⟩
  | cons y rest ih =>
    obtain ⟨ch, c, hfs, hl, hc⟩ := get_cons_some h
    subst hfs
    obtain ⟨c1, hc1⟩ := ih c hc
    refine ⟨Node.dir (putChild y c1 ch), ?_⟩
    rw [Node.put, hl]
    simp only [hc1]

theorem copy_empty_dir (fs : Node) (cwd src dst : Loc) (dch : List (String × Node))
    (hsrc : fs.get src = some (Node.dir [])) (hdst : fs.get dst = some (Node.dir dch))
    (hne : src ≠ dst) :
    ∃ fs1, Fs.copy fs cwd (Path.ofLoc src) (Path.ofLoc dst) = (fs1, none) := by
  obtain ⟨fs1, hput⟩ := put_existing dst (Node.dir dch) fs _ hdst
  refine ⟨fs1, ?_⟩
  unfold Fs.copy
  rw [resolve_ofLoc_of_isDir fs cwd src (isDirAt_of_get_dir _ _ _ hsrc)]
  simp only [hsrc]
  rw [resolve_ofLoc_of_isDir fs cwd dst (isDirAt_of_get_dir _ _ _ hdst)]
  simp only [if_neg hne, hdst, copyNode, copyChildren, hput]

theorem core_paste (w : World) (hact : w.action = Action.Paste) (hf : w.files_success = 0)
    (hd : w.directories_success = 0) :
    ∃ w1, core w = Except.ok w1 ∧ w1.out = (pasteAll w).out ∧ w1.fs = (pasteAll w).fs := by
  have ht := transfer_paste w hact
  have hp : performAction w = { pasteAll w with items := (pasteAll w).items } := by
    unfold performAction
    rw [ht]
    rfl
  obtain ⟨g1, g2, g3, g4⟩ := pasteAll_globals w
  have hc : countSuccessesAndFailures (performAction w) = performAction w := by
    unfold countSuccessesAndFailures
    rw [hp]
    simp only [g2, hact]
  refine ⟨performAction w, ?_, ?_, ?_⟩
  · unfold core
    rw [hc]
    apply showSuccesses_zero
    · rw [hp]; simp only [g3, hf]
    · rw [hp]; simp only [g4, hd]
  · rw [hp]
  · rw [hp]

/-! ## Lemmas on copying a tree -/

theorem lookupChild_append (x : String) (a b : List (String × Node)) :
    lookupChild x (a ++ b)
      = match lookupChild x a with
        | some n => some n
        | none => lookupChild x b := by
  induction a with
  | nil => rfl
  | cons e rest ih =>
    obtain ⟨y, n⟩ := e
    by_cases h : y = x
    · simp [lookupChild, h]
    · simp [lookupChild, h, ih]

theorem putChild_of_lookup_none (x : String) (v : Node) (ch : List (String × Node))
    (h : lookupChild x ch = none) : putChild x v ch = ch ++ [(x, v)] := by
  induction ch with
  | nil => rfl
  | cons e rest ih =>
    obtain ⟨y, n⟩ := e
    by_cases hy : y = x
    · simp [lookupChild, hy] at h
    · simp only [lookupChild, hy, if_false] at h
      simp [putChild, hy, ih h]

theorem lookupChild_isSome_of_mem (e : String × Node) (ch : List (String × Node))
    (h : e ∈ ch) : (lookupChild e.1 ch).isSome = true := by
  induction ch with
  | nil => simp at h
  | cons d rest ih =>
    obtain ⟨y, n⟩ := d
    by_cases hy : y = e.1
    · simp [lookupChild, hy]
    · simp only [lookupChild, hy, if_false]
      rcases List.mem_cons.mp h with h1 | h1
      · exact absurd (by rw [h1]) hy
      · exact ih h1

mutual
theorem copyNode_fresh : ∀ (src : Node), src.wf = true → ∀ (fname : Option String),
    copyNode src fname none = (src, none)
  | Node.file _, _, _ => by simp [copyNode]
  | Node.symlink _, _, _ => by simp [copyNode]
  | Node.dir ch, h, _ => by
    have hch : wfChildren ch = true := by simpa [Node.wf] using h
    have := copyChildren_fresh ch hch [] (fun _ _ => rfl)
    simp [copyNode, this]
theorem copyChildren_fresh : ∀ (ch : List (String × Node)), wfChildren ch = true →
    ∀ (acc : List (String × Node)), (∀ e ∈ ch, lookupChild e.1 acc = none) →
    copyChildren ch acc = (acc ++ ch, none)
  | [], _, acc, _ => by simp [copyChildren]
  | (x, c) :: rest, h, acc, hacc => by
    have h1 : c.wf = true ∧ lookupChild x rest = none ∧ wfChildren rest = true := by
      simpa [wfChildren, Bool.and_eq_true, Option.isNone_iff_eq_none, and_assoc] using h
    have hx : lookupChild x acc = none := hacc (x, c) (List.mem_cons_self _ _)
    have hc := copyNode_fresh c h1.1 (some x)
    have hrest := copyChildren_fresh rest h1.2.2 (acc ++ [(x, c)]) (by
      intro e he
      rw [lookupChild_append, hacc e (List.mem_cons_of_mem _ he)]
      simp only [lookupChild]
      by_cases hex : x = e.1
      · exfalso
        have := lookupChild_isSome_of_mem e rest he
        rw [← hex, h1.2.1] at this
        simp at this
      · simp [hex])
    rw [copyChildren, hx, hc]
    simp only []
    rw [putChild_of_lookup_none x c acc hx, hrest]
    simp
end

/-! ## Lemmas on writes and what they leave alone -/

theorem lookupChild_of_mem_wf (ch : List (String × Node)) (hwf : wfChildren ch = true)
    (e : String × Node) (he : e ∈ ch) : lookupChild e.1 ch = some e.2 := by
  induction ch with
  | nil => simp at he
  | cons d rest ih =>
    obtain ⟨y, c⟩ := d
    simp only [wfChildren, Bool.and_eq_true, Option.isNone_iff_eq_none] at hwf
    rcases List.mem_cons.mp he with h1 | h1
    · rw [h1]
      simp [lookupChild]
    · have hne : y ≠ e.1 := by
        intro hy
        have := lookupChild_isSome_of_mem e rest h1
        rw [← hy, hwf.1.2] at this
        simp at this
      simp only [lookupChild, hne, if_false]
      exact ih hwf.2 h1

/-! ## Lemmas on whole runs -/

/-- When only files succeeded, however many, a Copy run prints the name of its first item:
the test for "exactly one kind succeeded" comes before the branches that print counts. -/
theorem showSuccesses_files_only (w : World) (f : Path) (rest : List Path)
    (hitems : w.items = f :: rest) (hact : w.action = Action.Copy)
    (hN : 1 ≤ w.files_success) (hd : w.directories_success = 0) :
    showSuccesses w = Except.ok (w.print ("\x1b[38;5;40m√ Copied " ++ f.string ++ "\x1b[0m\n")) := by
  unfold showSuccesses
  have hx : (decide (w.files_success ≥ 1)) ≠ (decide (w.directories_success ≥ 1)) := by
    simp [hd]
    omega
  rw [if_pos hx, hact]
  simp only [hitems]

theorem walk_append (fs : Node) (a b : List Comp) (cur : Loc) :
    walk fs cur (a ++ b)
      = match walk fs cur a with
        | some l => walk fs l b
        | none => none := by
  induction a generalizing cur with
  | nil => simp [walk]
  | cons c rest ih =>
    by_cases hd : fs.isDirAt cur = true
    · cases c <;> simp only [List.cons_append, walk, if_pos hd] <;> exact ih _
    · cases c <;> simp [walk, hd]

theorem is_directory_ofLoc_slash (fs : Node) (cwd l : Loc) (x : String) :
    Fs.is_directory fs cwd ((Path.ofLoc (l ++ [x])).append { root := false, comps := [] })
      = fs.isDirAt (l ++ [x]) := by
  have happ : (Path.ofLoc (l ++ [x])).append { root := false, comps := [] }
      = { root := true, comps := (l ++ [x]).map Comp.name ++ [Comp.empty] } := by
    unfold Path.append Path.ofLoc Path.has_filename
    simp
  rw [happ]
  cases h : fs.isDirAt (l ++ [x]) with
  | true =>
    obtain ⟨ch, hg⟩ := get_dir_of_isDirAt _ _ h
    have hw : walk fs [] ((l ++ [x]).map Comp.name) = some (l ++ [x]) := by
      have := resolve_ofLoc_of_isDir fs cwd (l ++ [x]) h
      rwa [resolve_ofLoc] at this
    unfold Fs.is_directory stat lstat resolve
    simp only [if_true]
    rw [walk_append, hw]
    simp only [walk, h, if_true, hg]
  | false =>
    unfold Fs.is_directory stat lstat resolve
    simp only [if_true]
    rw [walk_append]
    cases hw : walk fs [] ((l ++ [x]).map Comp.name) with
    | none => rfl
    | some l1 =>
      have hl := walk_names_eq fs (l ++ [x]) [] l1 hw
      rw [List.nil_append] at hl
      subst hl
      simp [walk, h]

/-- In a Cut run every item without a directory part, file or not, is counted as a
directory once the staging directory exists: the path that `countSuccessesAndFailures`
tests for such an item is the staging directory itself. -/
theorem countCut_item_without_directory_part (w : World) (tmp : Loc) (f : Path)
    (hfp : w.filepath = Path.ofLoc (tmp ++ ["Clipboard"]))
    (hS : w.fs.isDirAt (tmp ++ ["Clipboard"]) = true)
    (hf : f.parent_path.filename = { root := false, comps := [] }) :
    countCut w f = { w with directories_success := inc32 w.directories_success } := by
  have hdir := is_directory_ofLoc_slash w.fs w.cwd tmp "Clipboard"
  rw [hS] at hdir
  have hex : Fs.exists w.fs w.cwd
      ((Path.ofLoc (tmp ++ ["Clipboard"])).append { root := false, comps := [] }) = true := by
    unfold Fs.is_directory at hdir
    unfold Fs.exists
    cases hs : stat w.fs w.cwd
        ((Path.ofLoc (tmp ++ ["Clipboard"])).append { root := false, comps := [] }) with
    | none => simp [hs] at hdir
    | some n => rfl
  unfold countCut
  rw [hf, hfp, hdir, hex]
  simp

/-- A Copy run on a symbolic link copies the link; the copy is counted only if it resolves
in the staging directory, so here no transfer fails and yet both counters stay 0. -/
theorem copy_link_counts_nothing :
    (transfer (exampleAt Action.Copy ["x/link"])).2 = []
      ∧ ((main ["clipboard", "copy", "x/link"] exampleWorld).2.fs.get
          ["tmp", "Clipboard", "link"]).isSome = true
      ∧ (main ["clipboard", "copy", "x/link"] exampleWorld).2.files_success = 0
      ∧ (main ["clipboard", "copy", "x/link"] exampleWorld).2.directories_success = 0 := by
  refine ⟨by decide, by decide, by decide, by decide⟩

theorem fits_none (c : Node) : fits c none = true := by
  cases c <;> simp [fits]

theorem fitsChildren_nil (ch : List (String × Node)) : fitsChildren ch [] = true := by
  induction ch with
  | nil => simp [fitsChildren]
  | cons e rest ih =>
    obtain ⟨x, c⟩ := e
    simp [fitsChildren, lookupChild, fits_none, ih]

theorem fitsChildren_of_forall (ch dch : List (String × Node))
    (h : ∀ e ∈ ch, fits e.2 (lookupChild e.1 dch) = true) : fitsChildren ch dch = true := by
  induction ch with
  | nil => simp [fitsChildren]
  | cons e rest ih =>
    obtain ⟨x, c⟩ := e
    simp only [fitsChildren, Bool.and_eq_true]
    exact ⟨h (x, c) (List.mem_cons_self _ _), ih (fun e he => h e (List.mem_cons_of_mem _ he))⟩

theorem fitsChildren_forall (ch dch : List (String × Node)) (h : fitsChildren ch dch = true) :
    ∀ e ∈ ch, fits e.2 (lookupChild e.1 dch) = true := by
  induction ch with
  | nil => intro e he; simp at he
  | cons d rest ih =>
    obtain ⟨x, c⟩ := d
    simp only [fitsChildren, Bool.and_eq_true] at h
    intro e he
    rcases List.mem_cons.mp he with h1 | h1
    · rw [h1]
      exact h.1
    · exact ih h.2 e h1

theorem reproducedChildren_of_forall (ch r : List (String × Node))
    (h : ∀ e ∈ ch, ∃ d, lookupChild e.1 r = some d ∧ reproduced e.2 d = true) :
    reproducedChildren ch r = true := by
  induction ch with
  | nil => simp [reproducedChildren]
  | cons e rest ih =>
    obtain ⟨x, c⟩ := e
    obtain ⟨d, hd, hrep⟩ := h (x, c) (List.mem_cons_self _ _)
    simp only [reproducedChildren, Bool.and_eq_true]
    simp only [] at hd hrep
    rw [hd]
    exact ⟨hrep, ih (fun e he => h e (List.mem_cons_of_mem _ he))⟩

mutual
theorem copyNode_fits : ∀ (src : Node), src.wf = true → ∀ (fname : Option String)
    (dst : Option Node), fits src dst = true →
    ∃ r, copyNode src fname dst = (r, none) ∧ reproduced src r = true ∧ (dst = none → r = src)
  | Node.file c, _, _, dst, hf => by
    cases dst with
    | none => exact ⟨Node.file c, by simp [copyNode], by simp [reproduced], fun _ => rfl⟩
    | some d =>
      cases d with
      | file c1 =>
        exact ⟨Node.file c, by simp [copyNode], by simp [reproduced], fun h => by cases h⟩
      | symlink t => simp [fits] at hf
      | dir dch => simp [fits] at hf
  | Node.symlink t, _, _, dst, hf => by
    cases dst with
    | none => exact ⟨Node.symlink t, by simp [copyNode], by simp [reproduced], fun _ => rfl⟩
    | some d => simp [fits] at hf
  | Node.dir ch, h, fname, dst, hf => by
    have hch : wfChildren ch = true := by simpa [Node.wf] using h
    cases dst with
    | none =>
      obtain ⟨r, hr, hall, _⟩ := copyChildren_fits ch hch [] (fitsChildren_nil ch)
      have hfresh := copyChildren_fresh ch hch [] (fun _ _ => rfl)
      rw [hfresh] at hr
      simp only [List.nil_append, Prod.mk.injEq, and_true] at hr
      subst hr
      refine ⟨Node.dir ch, by simp [copyNode, hfresh], ?_, fun _ => rfl⟩
      simp only [reproduced]
      exact reproducedChildren_of_forall ch ch
        (fun e he => (hall e he).imp (fun d hd => ⟨hd.1, hd.2.1⟩))
    | some d =>
      cases d with
      | file c1 => simp [fits] at hf
      | symlink t => simp [fits] at hf
      | dir dch =>
        have hfc : fitsChildren ch dch = true := by simpa [fits] using hf
        obtain ⟨r, hr, hall, _⟩ := copyChildren_fits ch hch dch hfc
        refine ⟨Node.dir r, by simp [copyNode, hr], ?_, fun h => by cases h⟩
        simp only [reproduced]
        exact reproducedChildren_of_forall ch r
          (fun e he => (hall e he).imp (fun d hd => ⟨hd.1, hd.2.1⟩))
theorem copyChildren_fits : ∀ (ch : List (String × Node)), wfChildren ch = true →
    ∀ (dch : List (String × Node)), fitsChildren ch dch = true →
    ∃ r, copyChildren ch dch = (r, none)
      ∧ (∀ e ∈ ch, ∃ d, lookupChild e.1 r = some d ∧ reproduced e.2 d = true
          ∧ (lookupChild e.1 dch = none → d = e.2))
      ∧ (∀ y, (∀ e ∈ ch, e.1 ≠ y) → lookupChild y r = lookupChild y dch)
  | [], _, dch, _ => ⟨dch, by simp [copyChildren], by simp, fun _ _ => rfl⟩
  | (x, c) :: rest, h, dch, hf => by
    have h1 : c.wf = true ∧ lookupChild x rest = none ∧ wfChildren rest = true := by
      simpa [wfChildren, Bool.and_eq_true, Option.isNone_iff_eq_none, and_assoc] using h
    have hf1 : fits c (lookupChild x dch) = true ∧ fitsChildren rest dch = true := by
      simpa [fitsChildren, Bool.and_eq_true] using hf
    have hnotin : ∀ e ∈ rest, e.1 ≠ x := by
      intro e he hex
      have := lookupChild_isSome_of_mem e rest he
      rw [hex, h1.2.1] at this
      simp at this
    obtain ⟨r0, hr0, hrep0, hid0⟩ := copyNode_fits c h1.1 (some x) (lookupChild x dch) hf1.1
    have hf2 : fitsChildren rest (putChild x r0 dch) = true := by
      apply fitsChildren_of_forall
      intro e he
      rw [lookupChild_putChild_ne x e.1 r0 dch (hnotin e he)]
      exact fitsChildren_forall rest dch hf1.2 e he
    obtain ⟨r, hr, hall, hframe⟩ := copyChildren_fits rest h1.2.2 (putChild x r0 dch) hf2
    refine ⟨r, ?_, ?_, ?_⟩
    · rw [copyChildren, hr0]
      exact hr
    · intro e he
      rcases List.mem_cons.mp he with h2 | h2
      · rw [h2]
        refine ⟨r0, ?_, hrep0, hid0⟩
        rw [hframe x hnotin, lookupChild_putChild_self]
      · obtain ⟨d, hd, hrep, hid⟩ := hall e h2
        refine ⟨d, hd, hrep, ?_⟩
        intro hn
        apply hid
        rw [lookupChild_putChild_ne x e.1 r0 dch (hnotin e h2)]
        exact hn
    · intro y hy
      have hxy : x ≠ y := hy (x, c) (List.mem_cons_self _ _)
      rw [hframe y (fun e he => hy e (List.mem_cons_of_mem _ he)),
        lookupChild_putChild_ne x y r0 dch (Ne.symm hxy)]
end

/-- C2, the code at the failing input.  `copy a.txt b.txt` with both files there: both
transfers succeed, `files_success` is 2 and `directories_success` is 0, and the summary that
`showSuccesses` prints is the name of the first item, "Copied a.txt", not "Copied 2 files":
the test `(files_success >= 1) != (directories_success >= 1)` is met first, so the branch
that prints the number of files is never reached. -/
theorem copy_two_files_prints_first_name :
    (main ["clipboard", "copy", "a.txt", "b.txt"] exampleWorld).1 = 0
      ∧ (main ["clipboard", "copy", "a.txt", "b.txt"] exampleWorld).2.files_success = 2
      ∧ (main ["clipboard", "copy", "a.txt", "b.txt"] exampleWorld).2.directories_success = 0
      ∧ (main ["clipboard", "copy", "a.txt", "b.txt"] exampleWorld).2.out
          = ["\x1b[38;5;214m• Copying...\x1b[0m\r", "\x1b[38;5;40m√ Copied a.txt\x1b[0m\n"]
      ∧ (main ["clipboard", "copy", "a.txt", "b.txt"] exampleWorld).2.out
          ≠ ["\x1b[38;5;214m• Copying...\x1b[0m\r", "\x1b[38;5;40m√ Copied 2 files\x1b[0m\n"] := by
  refine ⟨by decide, by decide, by decide, by decide, by decide⟩

/-- C3.  When the transfer loop of a run leaves K ≥ 1 Failure Records (the run has fewer
than 2^31 items, as `argc` is an `int`), `performAction` prints the heading, then one line
for each of the first min(K, 5) records in the order they were recorded, then the line
"...and K - 5 more." if and only if K > 5, then the two hints. -/
theorem failure_listing_shows_first_five (w : World) (hN : w.items.length < 2 ^ 31)
    (hK : 1 ≤ (transfer w).2.length) :
    (performAction w).out
        = (transfer w).1.out
          ++ (["\x1b[38;5;196m╳ Clipboard couldn't "
                ++ (if w.action = Action.Copy then "copy" else "cut") ++ " these items.\x1b[0m\n"]
            ++ ((transfer w).2.take 5).map failureLine
            ++ (if 5 < (transfer w).2.length then
                  ["\x1b[38;5;196m▏ ...and " ++ toString ((transfer w).2.length - 5)
                    ++ " more.\x1b[0m\n"]
                else [])
            ++ ["\x1b[38;5;219m▏ See if you have the needed permissions, or\x1b[0m\n",
                "\x1b[38;5;219m▏ try double-checking the spelling of the files or what directory you're in.\x1b[0m\n"])
      ∧ (((transfer w).2.take 5).map failureLine).length = min (transfer w).2.length 5 := by
  have hlen : (transfer w).2.length < 2 ^ 31 := by
    have := (transfer_failed_sublist w).length_le
    rw [List.length_map] at this
    omega
  have hact := (transfer_globals w).2.1
  constructor
  · unfold performAction
    cases htr : transfer w with
    | mk w1 failed =>
      rw [htr] at hlen hK hact
      simp only [] at hlen hK hact ⊢
      rw [if_pos (by omega), failureListing_eq _ _ hlen, hact]
  · rw [List.length_map, List.length_take, Nat.min_comm]

/-- C3: the theorem at a Copy run of seven missing files. -/
theorem failure_listing_shows_first_five_witness :
    (exampleAt Action.Copy ["m1", "m2", "m3", "m4", "m5", "m6", "m7"]).items.length < 2 ^ 31
      ∧ 1 ≤ (transfer (exampleAt Action.Copy ["m1", "m2", "m3", "m4", "m5", "m6", "m7"])).2.length
      ∧ (performAction (exampleAt Action.Copy ["m1", "m2", "m3", "m4", "m5", "m6", "m7"])).out
          = (transfer (exampleAt Action.Copy ["m1", "m2", "m3", "m4", "m5", "m6", "m7"])).1.out
            ++ (["\x1b[38;5;196m╳ Clipboard couldn't "
                  ++ (if (exampleAt Action.Copy ["m1", "m2", "m3", "m4", "m5", "m6", "m7"]).action
                        = Action.Copy then "copy" else "cut") ++ " these items.\x1b[0m\n"]
              ++ ((transfer (exampleAt Action.Copy
                    ["m1", "m2", "m3", "m4", "m5", "m6", "m7"])).2.take 5).map failureLine
              ++ (if 5 < (transfer (exampleAt Action.Copy
                    ["m1", "m2", "m3", "m4", "m5", "m6", "m7"])).2.length then
                    ["\x1b[38;5;196m▏ ...and "
                      ++ toString ((transfer (exampleAt Action.Copy
                          ["m1", "m2", "m3", "m4", "m5", "m6", "m7"])).2.length - 5)
                      ++ " more.\x1b[0m\n"]
                  else [])
              ++ ["\x1b[38;5;219m▏ See if you have the needed permissions, or\x1b[0m\n",
                  "\x1b[38;5;219m▏ try double-checking the spelling of the files or what directory you're in.\x1b[0m\n"])
      ∧ (((transfer (exampleAt Action.Copy
            ["m1", "m2", "m3", "m4", "m5", "m6", "m7"])).2.take 5).map failureLine).length
          = min (transfer (exampleAt Action.Copy
              ["m1", "m2", "m3", "m4", "m5", "m6", "m7"])).2.length 5 :=
  ⟨by decide, by decide,
    failure_listing_shows_first_five
      (exampleAt Action.Copy ["m1", "m2", "m3", "m4", "m5", "m6", "m7"]) (by decide) (by decide)⟩

/-- C5.  In a Cut or Copy run the transfer loop of `performAction` attempts every item in
input order, each in the state left by the attempts before it whether or not they raised;
`failedItems` is exactly the list of the attempts that raised, in order, each with the path of
its item and the error of its own attempt, so its paths are a subsequence of the items; and the
state after the loop is the state after the last attempt: a raise ends the round of its item
and nothing else.  The same holds of the loop whatever its `try` block does and whichever of
its rounds raise. -/
theorem transfer_isolates_item_errors (w : World) (hact : w.action ≠ Action.Paste) :
    (attempts (tryBlock w.action) w w.items).map Prod.fst = w.items
      ∧ (transfer w).2 = recorded (attempts (tryBlock w.action) w w.items)
      ∧ (transfer w).1 = afterAll (tryBlock w.action) w w.items
      ∧ ((transfer w).2.map Prod.fst).Sublist w.items
      ∧ (∀ xs ys, w.items = xs ++ ys →
          attempts (tryBlock w.action) w w.items
            = attempts (tryBlock w.action) w xs
              ++ attempts (tryBlock w.action) (afterAll (tryBlock w.action) w xs) ys)
      ∧ (∀ f e, (f, e) ∈ (transfer w).2
          ↔ (f, some e) ∈ attempts (tryBlock w.action) w w.items)
      ∧ transfer w = transferLoop (tryBlock w.action) w
      ∧ ∀ item : World → Path → World × Option Errc,
          (attempts item w w.items).map Prod.fst = w.items
            ∧ transferLoop item w
                = (afterAll item w w.items, recorded (attempts item w w.items))
            ∧ ((transferLoop item w).2.map Prod.fst).Sublist w.items := by
  refine ⟨attempts_map_fst _ _ _, ?_, ?_, transfer_failed_sublist w, ?_, ?_, ?_, ?_⟩
  · rw [transfer_eq w hact]
  · rw [transfer_eq w hact]
  · intro xs ys h
    rw [h]
    exact attempts_append _ _ _ _
  · intro f e
    rw [transfer_eq w hact]
    simp only [recorded, List.mem_filterMap]
    constructor
    · rintro ⟨a, ha, hae⟩
      obtain ⟨g, r⟩ := a
      cases r with
      | none => simp at hae
      | some e1 =>
        simp only [Option.map_some', Option.some.injEq, Prod.mk.injEq] at hae
        rw [← hae.1, ← hae.2]
        exact ha
    · intro h
      exact ⟨(f, some e), h, rfl⟩
  · rw [transfer_eq w hact, transferLoop_eq]
  · intro item
    refine ⟨attempts_map_fst _ _ _, transferLoop_eq item w, ?_⟩
    rw [transferLoop_eq]
    have := recorded_sublist (attempts item w w.items)
    rw [attempts_map_fst] at this
    exact this

/-- C5: the theorem at `copy missing.txt a.txt`: the first item fails, the second is
copied. -/
theorem transfer_isolates_item_errors_witness :
    (exampleAt Action.Copy ["missing.txt", "a.txt"]).action ≠ Action.Paste
      ∧ (transfer (exampleAt Action.Copy ["missing.txt", "a.txt"])).2
          = [(Path.ofString "missing.txt", Errc.no_such_file_or_directory)]
      ∧ (transfer (exampleAt Action.Copy ["missing.txt", "a.txt"])).2
          = recorded (attempts (tryBlock (exampleAt Action.Copy ["missing.txt", "a.txt"]).action)
              (exampleAt Action.Copy ["missing.txt", "a.txt"])
              (exampleAt Action.Copy ["missing.txt", "a.txt"]).items) :=
  ⟨by decide, by decide,
    (transfer_isolates_item_errors (exampleAt Action.Copy ["missing.txt", "a.txt"])
      (by decide)).2.1⟩

/-- C9, the code at the failing input.  `cut report.txt` with `report.txt` a regular file:
the move succeeds (the file is in the staging directory and no longer in the working
directory), but `countSuccessesAndFailures` tests `filepath / f.parent_path().filename()`,
which for an item without a directory part is the staging directory itself, so the item is
counted as a directory: `files_success` is 0 and `directories_success` is 1. -/
theorem cut_one_file_counts_a_directory :
    (main ["clipboard", "cut", "report.txt"] exampleWorld).1 = 0
      ∧ (transfer (exampleAt Action.Cut ["report.txt"])).2 = []
      ∧ ((main ["clipboard", "cut", "report.txt"] exampleWorld).2.fs.get
            ["tmp", "Clipboard", "report.txt"]).isSome = true
      ∧ ((main ["clipboard", "cut", "report.txt"] exampleWorld).2.fs.get
            ["home", "u", "report.txt"]).isSome = false
      ∧ (Path.ofString "/tmp/Clipboard").append
            (Path.ofString "report.txt").parent_path.filename
          = Path.ofString "/tmp/Clipboard/"
      ∧ (main ["clipboard", "cut", "report.txt"] exampleWorld).2.files_success = 0
      ∧ (main ["clipboard", "cut", "report.txt"] exampleWorld).2.directories_success = 1 := by
  refine ⟨by decide, by decide, by decide, by decide, by decide, by decide, by decide⟩

/-- C10.  Whenever `showSuccesses` runs, that is on the state left by `performAction` and
`countSuccessesAndFailures`, `files_success + directories_success` is at most the number of
items left in the list, so `items.at(0)` is read only from a non-empty list and
`out_of_range` is never raised.  In a Paste run, and in a run where every item failed, both
counters are 0 and `showSuccesses` returns the state as it got it: it prints nothing.  And in
any state whose counters sum to at most the number of its items, `showSuccesses` does not
raise `out_of_range`. -/
theorem showSuccesses_never_out_of_range (w : World) (hf : w.files_success = 0)
    (hd : w.directories_success = 0) :
    (countSuccessesAndFailures (performAction w)).files_success
        + (countSuccessesAndFailures (performAction w)).directories_success
        ≤ (countSuccessesAndFailures (performAction w)).items.length
      ∧ (∀ w1, showSuccesses (countSuccessesAndFailures (performAction w))
          ≠ Except.error (Abort.out_of_range, w1))
      ∧ ((w.action = Action.Paste ∨ ∀ f ∈ w.items, f ∈ (transfer w).2.map Prod.fst) →
          (countSuccessesAndFailures (performAction w)).files_success = 0
            ∧ (countSuccessesAndFailures (performAction w)).directories_success = 0
            ∧ showSuccesses (countSuccessesAndFailures (performAction w))
                = Except.ok (countSuccessesAndFailures (performAction w)))
      ∧ ∀ v : World, v.files_success + v.directories_success ≤ v.items.length →
          ∀ w1, showSuccesses v ≠ Except.error (Abort.out_of_range, w1) := by
  have hle := counted_le_remaining w hf hd
  obtain ⟨w1, hw1⟩ := showSuccesses_ok_of_le _ hle
  refine ⟨hle, ?_, ?_, ?_⟩
  rotate_left 2
  · intro v hv w2 h
    obtain ⟨w3, hw3⟩ := showSuccesses_ok_of_le v hv
    rw [hw3] at h
    cases h
  · intro w2 h
    rw [hw1] at h
    cases h
  · intro h
    have hzero : (countSuccessesAndFailures (performAction w)).files_success = 0
        ∧ (countSuccessesAndFailures (performAction w)).directories_success = 0 := by
      rcases h with hp | hall
      · have ha : (performAction w).action = Action.Paste := by
          rw [(performAction_globals w).1, (transfer_globals w).2.1, hp]
        have hc : countSuccessesAndFailures (performAction w) = performAction w := by
          unfold countSuccessesAndFailures
          rw [ha]
        rw [hc, (performAction_globals w).2.1, (performAction_globals w).2.2.1,
          (transfer_globals w).2.2.1, (transfer_globals w).2.2.2, hf, hd]
        exact ⟨rfl, rfl⟩
      · have hnil : (countSuccessesAndFailures (performAction w)).items = [] := by
          rw [(count_le (performAction w)).2.1, performAction_items, (transfer_globals w).1,
            List.filter_eq_nil_iff]
          intro a ha
          simpa using hall a ha
        rw [hnil] at hle
        simp only [List.length_nil, Nat.le_zero, Nat.add_eq_zero] at hle
        exact hle
    exact ⟨hzero.1, hzero.2, showSuccesses_zero _ hzero.1 hzero.2⟩

/-- C10: the theorem at `copy missing.txt`, a run in which every item fails. -/
theorem showSuccesses_never_out_of_range_witness :
    (exampleAt Action.Copy ["missing.txt"]).files_success = 0
      ∧ (exampleAt Action.Copy ["missing.txt"]).directories_success = 0
      ∧ (∀ f ∈ (exampleAt Action.Copy ["missing.txt"]).items,
          f ∈ (transfer (exampleAt Action.Copy ["missing.txt"])).2.map Prod.fst)
      ∧ (∀ w1, showSuccesses (countSuccessesAndFailures
            (performAction (exampleAt Action.Copy ["missing.txt"])))
          ≠ Except.error (Abort.out_of_range, w1)) :=
  ⟨rfl, rfl, by decide,
    (showSuccesses_never_out_of_range (exampleAt Action.Copy ["missing.txt"]) rfl rfl).2.1⟩

/-- C4.  In a run that reaches `setupTempDirectory` (the calls before it returned, which
includes that the temp directory exists): if the staging directory exists and the action is
Cut or Copy, afterwards it still exists and has no entries, whatever it held; if it exists
and the action is Paste, nothing changes; if nothing is at the staging path, the directory
is created, empty, in every mode. -/
theorem setupTempDirectory_contract (argv : List String) (w0 w : World)
    (hfront : frontEnd argv w0 = Except.ok w) :
    (Fs.is_directory w.fs w.cwd w.filepath = true → w.action ≠ Action.Paste →
        ∃ w1, setupTempDirectory w = Except.ok w1
          ∧ Fs.is_directory w1.fs w1.cwd w1.filepath = true
          ∧ Fs.directory_iterator w1.fs w1.cwd w1.filepath = Except.ok [])
      ∧ (Fs.is_directory w.fs w.cwd w.filepath = true → w.action = Action.Paste →
        setupTempDirectory w = Except.ok w)
      ∧ (lstat w.fs w.cwd w.filepath = none →
        ∃ w1, setupTempDirectory w = Except.ok w1
          ∧ Fs.is_directory w1.fs w1.cwd w1.filepath = true
          ∧ Fs.directory_iterator w1.fs w1.cwd w1.filepath = Except.ok []) := by
  obtain ⟨h1, _, _, h4, h5, _⟩ := frontEnd_ok_inv argv w0 w hfront
  rw [← h1] at h5
  obtain ⟨a, b, c⟩ := setupTempDirectory_cases w w0.tmp h4 h5
  refine ⟨?_, b, ?_⟩
  · intro hd ha
    obtain ⟨w1, e1, e2, e3, _⟩ := a hd ha
    exact ⟨w1, e1, e2, e3⟩
  · intro hn
    obtain ⟨w1, e1, e2, e3, _⟩ := c hn
    exact ⟨w1, e1, e2, e3⟩

/-- C4: the theorem at `copy a.txt` on a filesystem whose staging directory holds a file
from an earlier run; the directory is there afterwards, with no entries. -/
theorem setupTempDirectory_contract_witness :
    frontEnd ["clipboard", "copy", "a.txt"] usedStagingWorld
        = Except.ok (frontState ["clipboard", "copy", "a.txt"] usedStagingWorld)
      ∧ Fs.is_directory usedStagingWorld.fs ["home", "u"] (Path.ofString "/tmp/Clipboard") = true
      ∧ Fs.directory_iterator usedStagingWorld.fs ["home", "u"] (Path.ofString "/tmp/Clipboard")
          = Except.ok [Path.ofString "/tmp/Clipboard/old.txt"]
      ∧ ∃ w1, setupTempDirectory (frontState ["clipboard", "copy", "a.txt"] usedStagingWorld)
            = Except.ok w1
          ∧ Fs.is_directory w1.fs w1.cwd w1.filepath = true
          ∧ Fs.directory_iterator w1.fs w1.cwd w1.filepath = Except.ok [] :=
  ⟨rfl, by decide, rfl,
    (setupTempDirectory_contract ["clipboard", "copy", "a.txt"] usedStagingWorld
      (frontState ["clipboard", "copy", "a.txt"] usedStagingWorld) rfl).1
      (by decide) (by decide)⟩

/-- C7, counterexample.  `paste` in `/home/u` with an empty staging directory, and with no
staging directory at all (`setupTempDirectory` then creates it): the copy of the empty
directory raises nothing, so the run prints "Pasted", not "Failed to paste", and exits
with 0. -/
theorem paste_of_empty_staging_prints_pasted :
    Fs.directory_iterator exampleWorld.fs ["home", "u"] (Path.ofString "/tmp/Clipboard")
        = Except.ok []
      ∧ (main ["clipboard", "paste"] exampleWorld).1 = 0
      ∧ (main ["clipboard", "paste"] exampleWorld).2.out
          = ["\x1b[38;5;214m• Pasting...\x1b[0m\r", "\x1b[38;5;40m√ Pasted\x1b[0m"]
      ∧ Fs.exists noStagingWorld.fs ["home", "u"] (Path.ofString "/tmp/Clipboard") = false
      ∧ (main ["clipboard", "paste"] noStagingWorld).1 = 0
      ∧ (main ["clipboard", "paste"] noStagingWorld).2.out
          = ["\x1b[38;5;214m• Pasting...\x1b[0m\r", "\x1b[38;5;40m√ Pasted\x1b[0m"] := by
  refine ⟨rfl, by decide, by decide, by decide, by decide, by decide⟩

/-- C7, amended.  A Paste run that reaches `performAction` prints after it exactly one
line, "Pasted" or "Failed to paste", and no failure listing; the line is "Pasted" exactly
when neither `current_path()` nor the copy of the staging directory raised.  When the
staging directory is empty or nothing is at the staging path (the temp directory exists,
the working directory exists and is not the staging directory), `setupTempDirectory`
returns and the line is "Pasted". -/
theorem paste_prints_one_outcome_line (w : World) (hact : w.action = Action.Paste)
    (hf : w.files_success = 0) (hd : w.directories_success = 0) :
    (∃ w1, core w = Except.ok w1
        ∧ (w1.out = w.out ++ ["\x1b[38;5;40m√ Pasted\x1b[0m"]
          ∨ w1.out = w.out ++ ["\x1b[38;5;196m╳ Failed to paste\x1b[0m"])
        ∧ (w1.out = w.out ++ ["\x1b[38;5;40m√ Pasted\x1b[0m"] ↔
            Fs.current_path w.fs w.cwd = Except.ok (Path.ofLoc w.cwd)
              ∧ (Fs.copy w.fs w.cwd w.filepath (Path.ofLoc w.cwd)).2 = none))
      ∧ ((w.filepath = (Path.ofLoc w.tmp).append (Path.ofString "Clipboard")
            ∧ w.fs.isDirAt w.tmp = true ∧ w.fs.isDirAt w.cwd = true
            ∧ w.cwd ≠ w.tmp ++ ["Clipboard"]
            ∧ (lstat w.fs w.cwd w.filepath = none
              ∨ Fs.directory_iterator w.fs w.cwd w.filepath = Except.ok [])) →
          ∃ w1 w2, setupTempDirectory w = Except.ok w1 ∧ core w1 = Except.ok w2
            ∧ w2.out = w.out ++ ["\x1b[38;5;40m√ Pasted\x1b[0m"]) := by
  constructor
  · obtain ⟨w1, hcore, hout, _⟩ := core_paste w hact hf hd
    refine ⟨w1, hcore, ?_, ?_⟩
    · rw [hout]
      unfold pasteAll
      split
      · exact Or.inr rfl
      · split
        · exact Or.inl rfl
        · exact Or.inr rfl
    · rw [hout]
      unfold pasteAll Fs.current_path
      by_cases hcwd : w.fs.isDirAt w.cwd = true
      · rw [if_pos hcwd]
        simp only []
        cases hcopy : Fs.copy w.fs w.cwd w.filepath (Path.ofLoc w.cwd) with
        | mk fs1 r =>
          cases r with
          | none => simp [World.print]
          | some e => simp [World.print]
      · rw [if_neg hcwd]
        simp [World.print]
  · rintro ⟨hfp, htmp, hcwd, hne, hempty⟩
    rw [stagingPath_eq] at hfp
    obtain ⟨_, hb, hc⟩ := setupTempDirectory_cases w w.tmp hfp htmp
    have key : ∃ w1, setupTempDirectory w = Except.ok w1
        ∧ w1.fs.get (w.tmp ++ ["Clipboard"]) = some (Node.dir [])
        ∧ w1.fs.isDirAt w.cwd = true
        ∧ w1.action = w.action ∧ w1.cwd = w.cwd ∧ w1.filepath = w.filepath ∧ w1.out = w.out
        ∧ w1.files_success = w.files_success
        ∧ w1.directories_success = w.directories_success := by
      rcases hempty with hnone | hnil
      · obtain ⟨w1, e1, _, _, e4, e5, _, e7, e8, e9, e10, e11⟩ := hc hnone
        refine ⟨w1, e1, e4, ?_, e5, e7, e8, e9, e10, e11⟩
        have hnone1 := hnone
        rw [hfp, lstat_ofLoc_child _ _ _ _ htmp] at hnone1
        unfold setupTempDirectory at e1
        have hnd : Fs.is_directory w.fs w.cwd w.filepath = false := by
          rw [hfp, is_directory_ofLoc]
          unfold Node.isDirAt
          rw [hnone1]
        rw [hnd] at e1
        simp only [Bool.false_eq_true, if_false] at e1
        obtain ⟨fs1, hcr, _⟩ :=
          create_directories_missing w.fs w.cwd w.tmp "Clipboard" htmp hnone1
        obtain ⟨fs2, hput, _⟩ := put_child w.tmp "Clipboard" (Node.dir []) w.fs htmp
        rw [hfp, hcr] at e1
        simp only [Except.ok.injEq] at e1
        have hfs : w1.fs = fs1 := by rw [← e1]
        have hfs12 : fs1 = fs2 := by
          have := hcr
          unfold Fs.create_directories at this
          rw [← hfp, hnd] at this
          simp only [Bool.false_eq_true, if_false] at this
          rw [hfp] at this
          have hroot : (Path.ofLoc (w.tmp ++ ["Clipboard"])).root = true := rfl
          rw [if_neg (by simp [hroot]), if_pos hroot] at this
          have hcomps : (Path.ofLoc (w.tmp ++ ["Clipboard"])).comps
              = w.tmp.map Comp.name ++ [Comp.name "Clipboard"] := by
            simp [Path.ofLoc]
          rw [hcomps, mkdirs_through w.fs w.tmp [Comp.name "Clipboard"] [] (by
            intro k _ _
            rw [List.nil_append]
            exact isDirAt_take w.fs w.tmp htmp k)] at this
          rw [List.nil_append, Fs.mkdirs] at this
          simp only [hnone1, hput, Fs.mkdirs, Prod.mk.injEq, and_true] at this
          exact this.symm
        rw [hfs, hfs12]
        exact isDirAt_put_new _ _ _ _ _ hnone1 hput hcwd
      · have hdir : w.fs.isDirAt (w.tmp ++ ["Clipboard"]) = true := by
          rw [← is_directory_ofLoc w.fs w.cwd, ← hfp]
          unfold Fs.directory_iterator at hnil
          unfold Fs.is_directory
          cases hs : stat w.fs w.cwd w.filepath with
          | none => simp [hs] at hnil
          | some n =>
            cases n with
            | file c => simp [hs] at hnil
            | symlink t => simp [hs] at hnil
            | dir ch => rfl
        obtain ⟨ch, hg⟩ := get_dir_of_isDirAt _ _ hdir
        have hch : ch = [] := by
          rw [hfp, directory_iterator_ofLoc _ _ _ ch hg] at hnil
          simpa using hnil
        subst hch
        have hd1 : Fs.is_directory w.fs w.cwd w.filepath = true := by
          rw [hfp, is_directory_ofLoc]
          exact hdir
        exact ⟨w, hb hd1 hact, hg, hcwd, rfl, rfl, rfl, rfl, rfl, rfl⟩
    obtain ⟨w1, e1, hg, hcwd1, a1, a2, a3, a4, a5, a6⟩ := key
    obtain ⟨w2, hcore, hout, _⟩ := core_paste w1 (a1.trans hact) (a5.trans hf) (a6.trans hd)
    refine ⟨w1, w2, e1, hcore, ?_⟩
    rw [hout]
    obtain ⟨dch, hdst⟩ := get_dir_of_isDirAt _ _ hcwd1
    obtain ⟨fs3, hcopy⟩ := copy_empty_dir w1.fs w.cwd (w.tmp ++ ["Clipboard"]) w.cwd dch hg hdst
      (Ne.symm hne)
    unfold pasteAll Fs.current_path
    rw [a2, if_pos hcwd1]
    simp only []
    rw [a3, hfp, hcopy]
    simp only [World.print, a4]

/-- C7, amended: the theorem at `paste` in `/home/u` of the example, where the staging
directory is empty. -/
theorem paste_prints_one_outcome_line_witness :
    (exampleAt Action.Paste []).action = Action.Paste
      ∧ (exampleAt Action.Paste []).files_success = 0
      ∧ (exampleAt Action.Paste []).directories_success = 0
      ∧ (exampleAt Action.Paste []).filepath
          = (Path.ofLoc (exampleAt Action.Paste []).tmp).append (Path.ofString "Clipboard")
      ∧ (exampleAt Action.Paste []).fs.isDirAt (exampleAt Action.Paste []).tmp = true
      ∧ (exampleAt Action.Paste []).fs.isDirAt (exampleAt Action.Paste []).cwd = true
      ∧ (exampleAt Action.Paste []).cwd ≠ (exampleAt Action.Paste []).tmp ++ ["Clipboard"]
      ∧ Fs.directory_iterator (exampleAt Action.Paste []).fs (exampleAt Action.Paste []).cwd
          (exampleAt Action.Paste []).filepath = Except.ok []
      ∧ ∃ w1 w2, setupTempDirectory (exampleAt Action.Paste []) = Except.ok w1
          ∧ core w1 = Except.ok w2
          ∧ w2.out = (exampleAt Action.Paste []).out ++ ["\x1b[38;5;40m√ Pasted\x1b[0m"] :=
  ⟨rfl, rfl, rfl, by decide, by decide, by decide, by decide, rfl,
    (paste_prints_one_outcome_line (exampleAt Action.Paste []) rfl rfl rfl).2
      ⟨by decide, by decide, by decide, by decide, Or.inr rfl⟩⟩

/-- C8, counterexample.  `paste` when the temp directory of the environment does not
exist: the arguments hold no help flag and no usage error, yet `temp_directory_path()`
raises in `setupVariables`, before the staging directory is touched, and the run exits with
1, the filesystem unchanged. -/
theorem paste_without_temp_directory_exits_with_1 :
    (∀ a ∈ ["clipboard", "paste"], a ≠ "-h" ∧ a ≠ "--help")
      ∧ usageError ["clipboard", "paste"] = false
      ∧ frontEnd ["clipboard", "paste"] noTempWorld
          = Except.error
              (Abort.filesystem_error "temp_directory_path" Errc.not_a_directory, noTempWorld)
      ∧ (main ["clipboard", "paste"] noTempWorld).1 = 1
      ∧ (main ["clipboard", "paste"] noTempWorld).2.fs = noTempWorld.fs := by
  refine ⟨by decide, by decide, rfl, by decide, rfl⟩

/-- C8, amended.  For every argument vector without `-h` and `--help`, run where the temp
directory of the environment exists: the run stops before `setupTempDirectory` if and only
if the action argument is missing, is none of cut, copy and paste, or is cut or copy with
no item after it; it then exits with code 1 and the filesystem is unchanged.  In every
other case the calls before `setupTempDirectory` return, the items are the arguments after
the action, and the run goes on with `setupTempDirectory` and the core. -/
theorem usage_errors_exit_before_staging (argv : List String) (fs : Node) (cwd tmp : Loc)
    (hhelp : ∀ a ∈ argv, a ≠ "-h" ∧ a ≠ "--help") (htmp : fs.isDirAt tmp = true) :
    ((∃ a w1, frontEnd argv (World.initial fs cwd tmp) = Except.error (a, w1))
        ↔ usageError argv = true)
      ∧ (usageError argv = true →
          ∃ w1, frontEnd argv (World.initial fs cwd tmp) = Except.error (Abort.exit 1, w1)
            ∧ main argv (World.initial fs cwd tmp) = (1, w1) ∧ w1.fs = fs)
      ∧ (usageError argv = false →
          ∃ w1, frontEnd argv (World.initial fs cwd tmp) = Except.ok w1 ∧ w1.fs = fs
            ∧ w1.items = (argv.drop 2).map Path.ofString
            ∧ mainBody argv (World.initial fs cwd tmp)
                = match setupTempDirectory w1 with
                  | Except.error a => Except.error a
                  | Except.ok w2 => core w2) := by
  obtain ⟨hyes, hno⟩ := frontEnd_usage argv fs cwd tmp hhelp htmp
  refine ⟨?_, ?_, ?_⟩
  · constructor
    · rintro ⟨a, w1, h⟩
      cases hu : usageError argv with
      | true => rfl
      | false =>
        obtain ⟨w2, h2, _⟩ := hno hu
        rw [h2] at h
        cases h
    · intro hu
      obtain ⟨w1, h1, _⟩ := hyes hu
      exact ⟨_, w1, h1⟩
  · intro hu
    obtain ⟨w1, h1, h2⟩ := hyes hu
    refine ⟨w1, h1, ?_, h2⟩
    unfold main mainBody
    rw [h1]
  · intro hu
    obtain ⟨w1, h1, h2, h3, _⟩ := hno hu
    refine ⟨w1, h1, h2, h3, ?_⟩
    unfold mainBody
    rw [h1]

/-- C8, amended: the theorem at `clipboard cut` with no item, on the example. -/
theorem usage_errors_exit_before_staging_witness :
    (∀ a ∈ ["clipboard", "cut"], a ≠ "-h" ∧ a ≠ "--help")
      ∧ exampleFs.isDirAt ["tmp"] = true
      ∧ usageError ["clipboard", "cut"] = true
      ∧ ∃ w1, frontEnd ["clipboard", "cut"] (World.initial exampleFs ["home", "u"] ["tmp"])
            = Except.error (Abort.exit 1, w1)
          ∧ main ["clipboard", "cut"] (World.initial exampleFs ["home", "u"] ["tmp"]) = (1, w1)
          ∧ w1.fs = exampleFs :=
  ⟨by decide, by decide, by decide,
    (usage_errors_exit_before_staging ["clipboard", "cut"] exampleFs ["home", "u"] ["tmp"]
      (by decide) (by decide)).2.1 (by decide)⟩

end Clipboard
